import Mathlib

/-!
Verification of the MyDevices test-data generator and Firestore uploader.

The Python sources are shallowly embedded:
* `data_generator.py` — employee / device generation (`DataGenerator`),
  the division hierarchy (`generate_divisions`), division assignment
  (`assign_divisions`), staff-number and serial-number allocation,
  condition-score computation and the name (FIO) machinery;
* `data_uploader.py` — the Firestore batch uploader (`FirebaseUploader`):
  paged collection deletes, batched writes with a 400-operation ceiling
  and the record stringification / skip logic.

Randomness is modelled by a deterministic oracle (`Rnd`): every call of
Python's `random` consumes one value from the oracle and advances an index,
so one oracle value stands for one draw.  `random.randint(a, b)` becomes
`a + v % (b - a + 1)` which ranges over exactly the inclusive interval
`[a, b]` as the oracle value `v` ranges over `Nat`; `random.random()` and
weighted draws consume a rational from the oracle.  Unbounded `while True:`
retry loops are modelled with an explicit fuel argument and an `Option`
result; `none` means the loop was still running after `fuel` iterations.
Calendar dates are modelled by their civil day number (the Python code
round-trips dates through `YYYY-MM-DD` strings, which is a bijection onto
day numbers).
-/

set_option maxRecDepth 200000

namespace MyDevices

/-- Deterministic oracle standing for Python's `random` module: `g` supplies
the draw used by integer-valued primitives, `q` the draw used by
float-valued primitives (`random.random`, `random.uniform`), and `i` is the
position of the next draw. -/
structure Rnd where
  g : Nat → Nat
  q : Nat → ℚ
  i : Nat

/-- Consume one integer draw. -/
def Rnd.nat (r : Rnd) : Nat × Rnd := (r.g r.i, { r with i := r.i + 1 })

/-- Consume one float draw (modelled as a rational). -/
def Rnd.rat (r : Rnd) : ℚ × Rnd := (r.q r.i, { r with i := r.i + 1 })

/-- `random.randint(a, b)` — uniform on the inclusive range `[a, b]`. -/
def randint (a b : Nat) (r : Rnd) : Nat × Rnd :=
  (a + r.nat.1 % (b - a + 1), r.nat.2)

/-- `random.randint(a, b)` for possibly negative bounds. -/
def randintI (a b : Int) (r : Rnd) : Int × Rnd :=
  (a + (r.nat.1 : Int) % (b - a + 1), r.nat.2)

/-- `random.choice(lst)` — `d` is only a typing default, never reached for
the nonempty lists the sources use. -/
def rchoice (l : List α) (d : α) (r : Rnd) : α × Rnd :=
  (l.getD (r.nat.1 % l.length) d, r.nat.2)

theorem randint_bounds (a b : Nat) (r : Rnd) (h : a ≤ b) :
    a ≤ (randint a b r).1 ∧ (randint a b r).1 ≤ b := by
  unfold randint
  refine ⟨Nat.le_add_right _ _, ?_⟩
  have hlt : r.nat.1 % (b - a + 1) < b - a + 1 := Nat.mod_lt _ (Nat.succ_pos _)
  simp only
  omega

theorem randintI_bounds (a b : Int) (r : Rnd) (h : a ≤ b) :
    a ≤ (randintI a b r).1 ∧ (randintI a b r).1 ≤ b := by
  unfold randintI
  have hpos : (0 : Int) < b - a + 1 := by omega
  have h1 : 0 ≤ ((r.nat.1 : Int)) % (b - a + 1) := Int.emod_nonneg _ (by omega)
  have h2 : ((r.nat.1 : Int)) % (b - a + 1) < b - a + 1 := Int.emod_lt_of_pos _ hpos
  constructor <;> simp only <;> omega

theorem rchoice_mem (l : List α) (d : α) (r : Rnd) (hne : l ≠ []) :
    (rchoice l d r).1 ∈ l := by
  unfold rchoice
  have hlen : 0 < l.length := List.length_pos.mpr hne
  have hlt : r.nat.1 % l.length < l.length := Nat.mod_lt _ hlen
  simp only
  rw [List.getD_eq_getElem l d hlt]
  exact List.getElem_mem hlt

/-- Every member of the list is hit by some draw (`random.choice` is a
uniform pick over the whole list). -/
theorem rchoice_surjective (l : List α) (d : α) (x : α) (hx : x ∈ l) :
    ∃ r : Rnd, (rchoice l d r).1 = x := by
  obtain ⟨n, hn, hget⟩ := List.getElem_of_mem hx
  refine ⟨⟨fun _ => n, fun _ => 0, 0⟩, ?_⟩
  unfold rchoice Rnd.nat
  simp only
  rw [Nat.mod_eq_of_lt hn, List.getD_eq_getElem l d hn, hget]

/-! ### Decimal rendering (Python `str` / `f"{n:0wd}"`) -/

/-- The character for a decimal digit. -/
def digChar : Nat → Char
  | 0 => '0' | 1 => '1' | 2 => '2' | 3 => '3' | 4 => '4'
  | 5 => '5' | 6 => '6' | 7 => '7' | 8 => '8' | _ => '9'

/-- Numeric value of a digit character. -/
def digitVal (c : Char) : Nat := c.toNat - 48

/-- Little-endian decimal digits, with structural fuel (`n` itself is
enough fuel since `n / 10 < n`). -/
def digsRevAux : Nat → Nat → List Nat
  | _, 0 => []
  | 0, _ + 1 => []
  | fuel + 1, n + 1 => ((n + 1) % 10) :: digsRevAux fuel ((n + 1) / 10)

/-- Little-endian decimal digits of `n` (empty for `0`). -/
def digsRev (n : Nat) : List Nat := digsRevAux n n

/-- Decimal rendering of a positive number; `"0"` for zero, matching
Python's `str`. -/
def natRepr (n : Nat) : String :=
  if n = 0 then "0" else ⟨((digsRev n).map digChar).reverse⟩

/-- Python's `f"{n:0wd}"`: decimal digits of `n`, left-padded with zeros to
width `w`. -/
def fmt0 (w n : Nat) : String :=
  let ds := ((digsRev n).map digChar).reverse
  ⟨List.replicate (w - ds.length) '0' ++ ds⟩

theorem digChar_isDigit (d : Nat) : (digChar d).isDigit = true := by
  match d with
  | 0 | 1 | 2 | 3 | 4 | 5 | 6 | 7 | 8 => rfl
  | n + 9 => rfl

theorem digitVal_digChar (d : Nat) (h : d < 10) : digitVal (digChar d) = d := by
  interval_cases d <;> rfl

theorem digsRevAux_length_le (k : Nat) :
    ∀ fuel n, n ≤ fuel → n < 10 ^ k → (digsRevAux fuel n).length ≤ k := by
  induction k with
  | zero =>
    intro fuel n _ hn
    interval_cases n
    cases fuel <;> simp [digsRevAux]
  | succ k ih =>
    intro fuel n hf hn
    match n with
    | 0 => cases fuel <;> simp [digsRevAux]
    | m + 1 =>
      match fuel, hf with
      | f + 1, hf =>
        rw [digsRevAux]
        simp only [List.length_cons]
        have hdiv : (m + 1) / 10 < 10 ^ k := by
          apply Nat.div_lt_of_lt_mul
          calc m + 1 < 10 ^ (k + 1) := hn
          _ = 10 * 10 ^ k := by ring
        have hfle : (m + 1) / 10 ≤ f := by
          have := Nat.div_lt_self (Nat.succ_pos m) (by norm_num : 1 < 10)
          omega
        have := ih f _ hfle hdiv
        omega

theorem digsRev_length_le (k : Nat) : ∀ n, n < 10 ^ k → (digsRev n).length ≤ k :=
  fun n hn => digsRevAux_length_le k n n (Nat.le_refl n) hn

theorem fmt0_length (w n : Nat) (h : n < 10 ^ w) : (fmt0 w n).length = w := by
  unfold fmt0
  have hlen : ((digsRev n).map digChar).reverse.length ≤ w := by
    rw [List.length_reverse, List.length_map]
    exact digsRev_length_le w n h
  simp only [String.length, List.length_append, List.length_replicate]
  omega

theorem fmt0_digits (w n : Nat) : ∀ c ∈ (fmt0 w n).data, c.isDigit = true := by
  unfold fmt0
  intro c hc
  simp only [String.data] at hc
  rcases List.mem_append.1 hc with h | h
  · rw [List.eq_of_mem_replicate h]; rfl
  · rw [List.mem_reverse, List.mem_map] at h
    obtain ⟨d, _, rfl⟩ := h
    exact digChar_isDigit d

/-! ### Weighted choice (`random.choices` with weights)

Python's `random.choices` computes cumulative weights and picks the first
bucket whose cumulative weight strictly exceeds `random() * total`.
`wpick` is that selection written as a scan: it consumes the draw bucket by
bucket. -/

def wpick : List (α × ℚ) → α → ℚ → α
  | [], d, _ => d
  | (a, w) :: rest, d, q => if q < w then a else wpick rest d (q - w)

/-- `random.choices(values, weights)[0]`: one rational draw feeds the
cumulative-weight selection. -/
def weightedChoices (pairs : List (α × ℚ)) (d : α) (r : Rnd) : α × Rnd :=
  (wpick pairs d (r.rat.1 * (pairs.map (·.2)).sum), r.rat.2)

theorem wpick_mem (pairs : List (α × ℚ)) (d : α) :
    ∀ q, pairs ≠ [] → 0 ≤ q → q < (pairs.map (·.2)).sum →
    wpick pairs d q ∈ pairs.map (·.1) := by
  induction pairs with
  | nil => intro q h _ _; exact absurd rfl h
  | cons p rest ih =>
    intro q _ h0 ht
    obtain ⟨a, w⟩ := p
    rw [wpick]
    by_cases hq : q < w
    · simp [hq]
    · push_neg at hq
      simp only [List.map_cons, List.sum_cons] at ht
      have hrest : rest ≠ [] := by
        intro hemp; subst hemp
        simp only [List.map_nil, List.sum_nil, add_zero] at ht
        linarith
      have hmem := ih (q - w) hrest (by linarith) (by linarith)
      simp only [if_neg (not_lt.mpr hq), List.map_cons, List.mem_cons]
      exact Or.inr hmem

/-! ### Embedding of `data_generator.py`: reference data -/

/-- `DeviceType` enumeration; `val` is the Russian enum value. -/
inductive DeviceType
  | DESKTOP | LAPTOP | MONITOR | KEYBOARD | MOUSE | PHONE | TABLET
  deriving DecidableEq, Repr

def DeviceType.val : DeviceType → String
  | .DESKTOP => "Настольный ПК"
  | .LAPTOP => "Ноутбук"
  | .MONITOR => "Монитор"
  | .KEYBOARD => "Клавиатура"
  | .MOUSE => "Мышь"
  | .PHONE => "Телефон"
  | .TABLET => "Планшет"

/-- Device status weights (`DEVICE_STATUS_WEIGHTS`). -/
def DEVICE_STATUS_WEIGHTS : List (String × ℚ) :=
  [("исправен", 85), ("неисправен", 10), ("поиск", 3), ("утерян", 2)]

/-- The fifteen cities (`CITIES`). -/
def CITIES : List String :=
  ["Москва", "Санкт-Петербург", "Новосибирск", "Екатеринбург", "Казань",
   "Нижний Новгород", "Челябинск", "Самара", "Омск", "Ростов-на-Дону",
   "Уфа", "Красноярск", "Воронеж", "Пермь", "Волгоград"]

/-- Effective `DEVICE_MODELS`: the module-level dict literal at the bottom of
`data_generator.py` overwrites the first one, so this is the binding the
running code sees (insertion order preserved). -/
def DEVICE_MODELS : DeviceType → List String
  | .MONITOR => ["Dell U2419H", "LG 24MK400H-B", "Samsung S24R350", "Acer R240Y", "HP 24mh"]
  | .DESKTOP => ["Dell OptiPlex 3080", "HP ProDesk 400 G7", "Lenovo ThinkCentre M75q", "Acer Veriton X2660G"]
  | .LAPTOP => ["Dell Latitude 5420", "HP EliteBook 840 G8", "Lenovo ThinkPad T14", "Apple MacBook Pro 16\" M1"]
  | .TABLET => ["Apple iPad Pro 12.9\"", "Samsung Galaxy Tab S7", "Huawei MatePad Pro", "Lenovo Tab P12 Pro"]
  | .PHONE => ["iPhone 13", "Samsung Galaxy S21", "Xiaomi Redmi Note 11", "Huawei P50"]
  | .KEYBOARD => ["Logitech K120", "Dell KB216", "HP K1500", "A4Tech KR-85"]
  | .MOUSE => ["Logitech M90", "Dell MS116", "HP X500", "A4Tech OP-620D"]

structure DeviceDefaults where
  min : Nat
  max : Nat
  useful_life : Nat
  manager_only : Bool

/-- Effective `DEVICE_DEFAULTS` (the second module-level literal wins). -/
def DEVICE_DEFAULTS : DeviceType → DeviceDefaults
  | .MONITOR => ⟨1, 2, 5, false⟩
  | .DESKTOP => ⟨1, 1, 5, false⟩
  | .LAPTOP => ⟨0, 1, 3, true⟩
  | .TABLET => ⟨0, 1, 3, true⟩
  | .PHONE => ⟨1, 1, 3, false⟩
  | .KEYBOARD => ⟨1, 1, 5, false⟩
  | .MOUSE => ⟨1, 1, 5, false⟩

/-- Iteration order of the effective `DEVICE_DEFAULTS` dict. -/
def DEVICE_DEFAULTS_ORDER : List DeviceType :=
  [.MONITOR, .DESKTOP, .LAPTOP, .TABLET, .PHONE, .KEYBOARD, .MOUSE]

structure Position where
  name : String
  is_manager : Bool
  deriving DecidableEq, Repr

/-- `generate_positions()`. -/
def positions : List Position :=
  [⟨"Директор департамента", true⟩,
   ⟨"Заместитель директора департамента", true⟩,
   ⟨"Начальник управления", true⟩,
   ⟨"Заместитель начальника управления", true⟩,
   ⟨"Начальник отдела", true⟩,
   ⟨"Заместитель начальника отдела", true⟩,
   ⟨"Руководитель группы", true⟩,
   ⟨"Главный специалист", false⟩,
   ⟨"Ведущий специалист", false⟩,
   ⟨"Старший специалист", false⟩,
   ⟨"Специалист", false⟩,
   ⟨"Младший специалист", false⟩,
   ⟨"Аналитик", false⟩,
   ⟨"Экономист", false⟩,
   ⟨"Бухгалтер", false⟩]

/-- `Employee` dataclass. -/
structure Employee where
  empID : String
  fio : String
  tn : String
  position : String
  division : String
  location : String
  is_manager : Bool
  deriving DecidableEq, Repr

/-- `Device` dataclass. `date_receipt` is the civil day number of the
`YYYY-MM-DD` date string the Python code stores. -/
structure Device where
  device_id : String
  emp_id : String
  nomenclature : String
  model : String
  date_receipt : Int
  useful_life : Nat
  status : String
  ctc : Int
  serial_number : String
  deriving DecidableEq, Repr

/-- `NUM_EMPLOYEES` global. -/
def NUM_EMPLOYEES : Nat := 1000

/-- `NUM_DEVICES` global. -/
def NUM_DEVICES : Nat := 7000

/-- `datetime.now()` as an explicit input: current year, month and civil
day number. -/
structure Clock where
  year : Nat
  month : Nat
  dayNum : Int

/-! ### Substring search (Python's `in` on lowercased strings) -/

def charsLead : List Char → List Char → Bool
  | [], _ => true
  | _ :: _, [] => false
  | a :: as, b :: bs => a == b && charsLead as bs

/-- `needle in hay` for char lists. -/
def hasSub (needle : List Char) : List Char → Bool
  | [] => needle.isEmpty
  | c :: t => charsLead needle (c :: t) || hasSub needle t

/-- `name.lower() in model.lower()`. -/
def lowerSub (name model : String) : Bool :=
  hasSub (name.data.map Char.toLower) (model.data.map Char.toLower)

/-! ### Serial numbers (`DataGenerator._generate_serial_number`) -/

/-- Per-model serial cache entry (`self._model_serial_cache[model]`);
`pfx` is the manufacturer prefix field. -/
structure SerialCache where
  pfx : String
  counter : Nat
  used : List String
  deriving DecidableEq, Repr

/-- The manufacturer prefix map, in dict insertion order. -/
def prefix_map : List (String × String) :=
  [("Dell", "DL"), ("HP", "HP"), ("Lenovo", "LN"), ("Acer", "AC"),
   ("LG", "LG"), ("Samsung", "SM"), ("Apple", "AP"), ("Logitech", "LG"),
   ("Huawei", "HW"), ("Xiaomi", "XM"), ("A4Tech", "AT")]

/-- First matching manufacturer prefix, defaulting to `"SN"`. -/
def findPfx : List (String × String) → String → String
  | [], _ => "SN"
  | (name, code) :: rest, model =>
    if lowerSub name model then code else findPfx rest model

/-- Sum of character codes of a string (`sum(ord(c) for c in base)`). -/
def sumCodes (s : String) : Nat := (s.data.map Char.toNat).sum

/-- One candidate body: prefix, two-digit year, two-digit month and the
six-digit counter. -/
def serialBase (pfx yy mm : String) (k : Nat) : String :=
  pfx ++ yy ++ mm ++ fmt0 6 k

/-- The `while True:` allocation loop of `_generate_serial_number`, with
explicit fuel.  Each pass bumps the counter, builds the base, appends the
checksum digit and returns unless the serial was already used. -/
def allocSerial (yy mm : String) : Nat → SerialCache → Option (String × SerialCache)
  | 0, _ => none
  | fuel + 1, c =>
    let k := c.counter + 1
    let base := serialBase c.pfx yy mm k
    let serial := base ++ String.singleton (digChar (sumCodes base % 10))
    if serial ∈ c.used then allocSerial yy mm fuel { c with counter := k }
    else some (serial, { pfx := c.pfx, counter := k, used := serial :: c.used })

/-- Last two digits of the year (`str(now.year)[-2:]`). -/
def yySt (clock : Clock) : String := fmt0 2 (clock.year % 100)

/-- Two-digit month (`f"{now.month:02d}"`). -/
def mmSt (clock : Clock) : String := fmt0 2 clock.month

/-- The `self._model_serial_cache` dict, as a partial map. -/
def CacheTable := String → Option SerialCache

/-- Dict entry assignment. -/
def CacheTable.set (t : CacheTable) (m : String) (c : SerialCache) : CacheTable :=
  fun m' => if m' = m then some c else t m'

instance : EmptyCollection CacheTable := ⟨fun _ => none⟩

/-- `_generate_serial_number(model)`: initialise the per-model cache on
first use, then run the allocation loop.  Returns the serial plus the
updated cache table. -/
def generate_serial_number (clock : Clock) (model : String) (fuel : Nat)
    (caches : CacheTable) : Option (String × CacheTable) :=
  let c := match caches model with
    | some c => c
    | none => { pfx := findPfx prefix_map model, counter := 0, used := [] }
  match allocSerial (yySt clock) (mmSt clock) fuel c with
  | none => none
  | some (serial, c') => some (serial, caches.set model c')

/-- `random.random()` draw. -/
def rrandom (r : Rnd) : ℚ × Rnd := r.rat

/-- `random.uniform(a, b)` as `a + (b - a) * random()`. -/
def runiform (a b : ℚ) (r : Rnd) : ℚ × Rnd :=
  (a + (b - a) * r.rat.1, r.rat.2)

/-- A float oracle that only produces values in `[0, 1)`, as `random()`
does. -/
def Rnd.Unit01 (r : Rnd) : Prop := ∀ i, 0 ≤ r.q i ∧ r.q i < 1

/-! ### Names (`DataGenerator._generate_fio`) -/

def first_names : List String :=
  ["Александр", "Дмитрий", "Максим", "Сергей", "Андрей",
   "Алексей", "Артём", "Илья", "Кирилл", "Михаил",
   "Анна", "Мария", "Елена", "Дарья", "Анастасия",
   "Виктория", "Полина", "Екатерина", "София", "Алиса"]

def last_names : List String :=
  ["Иванов", "Петров", "Сидоров", "Смирнов", "Кузнецов",
   "Попов", "Васильев", "Павлов", "Семёнов", "Голубев",
   "Виноградова", "Ковалёва", "Новикова", "Морозова", "Волкова"]

def middle_names : List String :=
  ["Александрович", "Дмитриевич", "Сергеевич", "Андреевич",
   "Алексеевич", "Максимович", "Ильич", "Кириллович",
   "Александровна", "Дмитриевна", "Сергеевна", "Андреевна",
   "Алексеевна", "Максимовна", "Ильинична", "Кирилловна"]

/-- `_generate_fio`: one draw per name part, joined by single spaces. -/
def generate_fio (r : Rnd) : String × Rnd :=
  let (ln, r1) := rchoice last_names "" r
  let (fn, r2) := rchoice first_names "" r1
  let (mn, r3) := rchoice middle_names "" r2
  (ln ++ " " ++ fn ++ " " ++ mn, r3)

/-- Splitting a character list at every separator (Python `str.split(sep)`
semantics: empty pieces are kept). -/
def splitChars (p : Char → Bool) : List Char → List Char → List (List Char)
  | [], acc => [acc.reverse]
  | c :: cs, acc =>
    if p c then acc.reverse :: splitChars p cs [] else splitChars p cs (c :: acc)

/-- Python `str.split(sep)` on a one-character separator class. -/
def pySplit (p : Char → Bool) (s : String) : List String :=
  (splitChars p s.data []).map (fun l => ⟨l⟩)

/-- Python `str.strip()`. -/
def pyStrip (s : String) : String :=
  ⟨((s.data.dropWhile (·.isWhitespace)).reverse.dropWhile (·.isWhitespace)).reverse⟩

/-- `str.split()` with no argument (whitespace tokenisation, empty tokens
dropped). -/
def pyTokens (s : String) : List String :=
  (pySplit (·.isWhitespace) s).filter (· ≠ "")

/-- `_generate_fios_batch(count)`.  The service response is an oracle input:
`some content` when the request returns, `none` when it raises.  On a
response, every stripped non-empty line is appended to the cache with no
further validation; on an exception the cache is replaced by `count`
locally generated names, but only when it is empty. -/
def fallbackFios : Nat → Rnd → List String × Rnd
  | 0, r => ([], r)
  | n + 1, r =>
    let (f, r1) := generate_fio r
    let (rest, r2) := fallbackFios n r1
    (f :: rest, r2)

def generate_fios_batch (content : Option String) (count : Nat)
    (cache : List String) (r : Rnd) : List String × Rnd :=
  match content with
  | some c =>
    let fios := ((pySplit (· == '\n') c).map pyStrip).filter (· ≠ "")
    (cache ++ fios, r)
  | none =>
    if cache = [] then fallbackFios count r
    else (cache, r)

/-! ### City selection (`DataGenerator._select_city`) -/

/-- `city_weights`: descending weight `100 - i` per city. -/
def city_weights : List (String × ℚ) :=
  CITIES.enum.map (fun p => (p.2, (100 : ℚ) - p.1))

/-- Normalised weights, as `_select_city` computes them. -/
def city_weights_norm : List (String × ℚ) :=
  let total := (city_weights.map (·.2)).sum
  city_weights.map (fun p => (p.1, p.2 / total))

/-- `_select_city`. -/
def select_city (r : Rnd) : String × Rnd :=
  weightedChoices city_weights_norm "" r

/-! ### Staff numbers and employees (`DataGenerator.generate_employee`) -/

/-- The `while True:` staff-number loop: draw
`f"{random.randint(1, 99999999):08d}"`, retry on collision with the
used-set, record and return otherwise. -/
def allocTN : Nat → List String → Rnd → Option (String × List String × Rnd)
  | 0, _, _ => none
  | fuel + 1, used, r =>
    let (v, r') := randint 1 99999999 r
    let tn := fmt0 8 v
    if tn ∈ used then allocTN fuel used r' else some (tn, tn :: used, r')

/-- Mutable state of a `DataGenerator` instance. -/
structure DataGen where
  employees : List Employee
  devices : List Device
  used_tns : List String
  cache : CacheTable

def DataGen.init : DataGen := ⟨[], [], [], ∅⟩

/-- `generate_employee(emp_id)`, happy path: FIO, fresh staff number,
weighted city, uniformly chosen position; the new employee is appended to
`self.employees`. -/
def generate_employee (emp_id : Nat) (st : DataGen) (r : Rnd) (fuel : Nat) :
    Option (Employee × DataGen × Rnd) :=
  let (fio, r1) := generate_fio r
  match allocTN fuel st.used_tns r1 with
  | none => none
  | some (tn, used', r2) =>
    let (city, r3) := select_city r2
    let (pos, r4) := rchoice positions ⟨"", false⟩ r3
    let emp : Employee :=
      { empID := natRepr emp_id, fio := fio, tn := tn, position := pos.name,
        division := "", location := city, is_manager := pos.is_manager }
    some (emp, { st with employees := st.employees ++ [emp], used_tns := used' }, r4)

/-- The `except` branch of `generate_employee`: the minimal stub employee
returned when building one employee raises.  Its staff number is the empty
string and it is not appended to `self.employees`. -/
def generate_employee_recovery (emp_id : Nat) (r : Rnd) : Employee :=
  { empID := natRepr emp_id
    fio := "Сотрудник " ++ natRepr emp_id
    tn := ""
    position := (rchoice positions ⟨"", false⟩ r).1.name
    division := ""
    location := ""
    is_manager := false }

/-! ### Condition score -/

/-- `_calculate_ctc(date_receipt)`: day-based buckets, then a ±5 jitter,
then clamping into `[1, 100]`. -/
def calculate_ctc (clock : Clock) (receipt : Int) (r : Rnd) : Int × Rnd :=
  let br :=
    if clock.dayNum - receipt < 180 then randint 80 100 r
    else if clock.dayNum - receipt < 365 then randint 70 95 r
    else if clock.dayNum - receipt < 730 then randint 60 85 r
    else if clock.dayNum - receipt < 1460 then randint 40 70 r
    else randint 20 50 r
  let jr := randintI (-5) 5 br.2
  (max 1 (min 100 ((br.1 : Int) + jr.1)), jr.2)

/-- The month-difference formula of `_generate_ctc`:
`(now.year - receipt.year) * 12 + (now.month - receipt.month)`. -/
def monthsBetween (clock : Clock) (recYear recMonth : Nat) : Int :=
  ((clock.year : Int) - recYear) * 12 + ((clock.month : Int) - recMonth)

/-- `_generate_ctc(date_receipt)`: month-based buckets, no jitter, no
clamping.  (Defined on the class but not called by `generate_device`.) -/
def generate_ctc (clock : Clock) (recYear recMonth : Nat) (r : Rnd) : Nat × Rnd :=
  if monthsBetween clock recYear recMonth ≤ 12 then randint 80 100 r
  else if monthsBetween clock recYear recMonth ≤ 36 then randint 50 90 r
  else randint 10 60 r

/-! ### Devices (`DataGenerator.generate_device`) -/

/-- `manufacturer_map` keys in insertion order (keys equal values). -/
def manufacturer_map : List String :=
  ["Dell", "HP", "Lenovo", "Acer", "LG", "Samsung", "Apple", "Logitech",
   "Huawei", "Xiaomi", "A4Tech"]

/-- First manufacturer whose lowercased name occurs in the model name. -/
def findManuf : List String → String → String
  | [], _ => "Неизвестный производитель"
  | name :: rest, model =>
    if lowerSub name model then name else findManuf rest model

/-- The `available_types` scan when no device type is passed: skip
manager-only types for non-managers; types with `min > 0` are always
available, optional ones with a 50% coin flip (the draw happens only when
`min = 0`, by `or` short-circuiting). -/
def availableTypes (mgr : Bool) : List DeviceType → Rnd → List DeviceType × Rnd
  | [], r => ([], r)
  | dt :: rest, r =>
    let s := DEVICE_DEFAULTS dt
    if s.manager_only && !mgr then availableTypes mgr rest r
    else if s.min > 0 then
      let (l, r') := availableTypes mgr rest r
      (dt :: l, r')
    else
      let (q, r1) := rrandom r
      let (l, r') := availableTypes mgr rest r1
      if q < 1/2 then (dt :: l, r') else (l, r')

/-- `generate_device(device_id, emp_id, is_manager, device_type, model)`.
The success path appends the new device to `self.devices`; `none` stands
for the serial-allocation loop still running after `fuel` rounds. -/
def generate_device (clock : Clock) (device_id : Nat) (emp_id : String)
    (mgr : Bool) (dtype : Option DeviceType) (mdl : Option String)
    (st : DataGen) (r : Rnd) (fuel : Nat) : Option (Device × DataGen × Rnd) :=
  let (dt, r1) :=
    match dtype with
    | some dt => (dt, r)
    | none =>
      let (avail, ra) := availableTypes mgr DEVICE_DEFAULTS_ORDER r
      let avail := if avail = [] then [DeviceType.PHONE] else avail
      rchoice avail DeviceType.PHONE ra
  let (m, r2) :=
    match mdl with
    | some m => (m, r1)
    | none => rchoice (DEVICE_MODELS dt) "" r1
  let (back, r3) := randint 1 3650 r2
  let date_receipt : Int := clock.dayNum - back
  let s := DEVICE_DEFAULTS dt
  let (status, r4) := weightedChoices DEVICE_STATUS_WEIGHTS "" r3
  match generate_serial_number clock m fuel st.cache with
  | none => none
  | some (serial, cache') =>
    let (ctc, r5) := calculate_ctc clock date_receipt r4
    let manufacturer := findManuf manufacturer_map m
    let nomenclature :=
      dt.val ++ " " ++ manufacturer ++ " " ++ m ++ " (SN: " ++ serial ++ ")"
    let device : Device :=
      { device_id := natRepr device_id, emp_id := emp_id,
        nomenclature := nomenclature, model := m, date_receipt := date_receipt,
        useful_life := s.useful_life, status := status, ctc := ctc,
        serial_number := serial }
    some (device, { st with devices := st.devices ++ [device], cache := cache' }, r5)

/-! ### Division hierarchy (`generate_divisions`) -/

structure Division where
  id : Nat
  name : String
  level : Nat
  parent_id : Option Nat
  deriving DecidableEq, Repr

def centers : List String :=
  ["Розничного бизнеса", "Корпоративного бизнеса",
   "Инвестиционного бизнеса", "Казначейских операций"]

/-- `generate_divisions()`: 4 centers, 3 departments per parent at each of
the three lower levels; ids are `len(divisions) + 1` at append time. -/
def generate_divisions : List Division :=
  let ds1 := centers.foldl
    (fun acc c => acc ++ [⟨acc.length + 1, "Центр " ++ c, 0, none⟩]) []
  let ds2 := (List.range' 1 centers.length).foldl (fun acc cid =>
    (List.range' 1 3).foldl (fun acc j =>
      acc ++ [⟨acc.length + 1,
               "Управление " ++ natRepr j ++ " при центре " ++ natRepr cid,
               1, some cid⟩]) acc) ds1
  let ds3 := (List.range (centers.length * 3)).foldl (fun acc i =>
    let mid := centers.length + i + 1
    (List.range' 1 3).foldl (fun acc j =>
      acc ++ [⟨acc.length + 1,
               "Отдел " ++ natRepr j ++ " управления " ++ natRepr mid,
               2, some mid⟩]) acc) ds2
  (List.range (centers.length * 3 * 3)).foldl (fun acc i =>
    let did := centers.length * 4 + i + 1
    (List.range' 1 3).foldl (fun acc j =>
      acc ++ [⟨acc.length + 1,
               "Сектор " ++ natRepr j ++ " отдела " ++ natRepr did,
               3, some did⟩]) acc) ds3

/-- The divisions of one level, in list order (`level_groups[level]`). -/
def levelGroup (divs : List Division) (lv : Nat) : List Division :=
  divs.filter (fun d => d.level = lv)

/-- The level weights of `assign_divisions`. -/
def LEVEL_WEIGHTS : List (Nat × ℚ) :=
  [(0, 0.02), (1, 0.08), (2, 0.3), (3, 0.6)]

/-- `assign_divisions(divisions)`: per employee, a weighted level draw and
then a uniform pick among that level's divisions; only `division` changes
and the employee order is preserved. -/
def assign_divisions (divs : List Division) :
    List Employee → Rnd → List Employee × Rnd
  | [], r => ([], r)
  | e :: rest, r =>
    let (lv, r1) := weightedChoices LEVEL_WEIGHTS 0 r
    let (dv, r2) := rchoice (levelGroup divs lv) ⟨0, "", 0, none⟩ r1
    let (rest', r3) := assign_divisions divs rest r2
    ({ e with division := dv.name } :: rest', r3)

/-! ### `generate_all_data`: the generation pipeline -/

/-- Step 2: `for i in range(1, NUM_EMPLOYEES + 1): generate_employee(i)`;
`n` counts the remaining iterations, `i` is the next id. -/
def employeesPass : Nat → Nat → DataGen → Rnd → Nat → Option (DataGen × Rnd)
  | 0, _, st, r, _ => some (st, r)
  | n + 1, i, st, r, fuel =>
    match generate_employee i st r fuel with
    | none => none
    | some (_, st', r') => employeesPass n (i + 1) st' r' fuel

/-- The mandatory per-employee device list of `generate_all_data`. -/
def mandatory_devices : List (DeviceType × Nat × Nat) :=
  [(.DESKTOP, 1, 1), (.KEYBOARD, 1, 1), (.MOUSE, 1, 1), (.PHONE, 1, 1),
   (.MONITOR, 1, 2)]

/-- Inner `for _ in range(count)` loop of the mandatory pass: generate one
device per round unless the global device budget is exhausted. -/
def mandCount (nd : Nat) (clock : Clock) (dt : DeviceType) (m : String) (emp : Employee) :
    Nat → DataGen → Rnd → Nat → Nat → Option (DataGen × Rnd × Nat)
  | 0, st, r, c, _ => some (st, r, c)
  | k + 1, st, r, c, fuel =>
    if nd ≤ c then some (st, r, c)
    else
      match generate_device clock (c + 1) emp.empID emp.is_manager
          (some dt) (some m) st r fuel with
      | none => none
      | some (_, st', r') => mandCount nd clock dt m emp k st' r' (c + 1) fuel

/-- `for device_type, min_count, max_count in mandatory_devices` loop:
pick one model per type, then `random.randint(min, max)` copies. -/
def mandTypes (nd : Nat) (clock : Clock) (emp : Employee) :
    List (DeviceType × Nat × Nat) → DataGen → Rnd → Nat → Nat →
    Option (DataGen × Rnd × Nat)
  | [], st, r, c, _ => some (st, r, c)
  | (dt, lo, hi) :: rest, st, r, c, fuel =>
    if nd ≤ c then some (st, r, c)
    else
      let (m, r1) := rchoice (DEVICE_MODELS dt) "" r
      let (cnt, r2) := randint lo hi r1
      match mandCount nd clock dt m emp cnt st r2 c fuel with
      | none => none
      | some (st', r', c') => mandTypes nd clock emp rest st' r' c' fuel

/-- The mandatory pass over all employees. -/
def mandPass (nd : Nat) (clock : Clock) :
    List Employee → DataGen → Rnd → Nat → Nat → Option (DataGen × Rnd × Nat)
  | [], st, r, c, _ => some (st, r, c)
  | e :: rest, st, r, c, fuel =>
    match mandTypes nd clock e mandatory_devices st r c fuel with
    | none => none
    | some (st', r', c') => mandPass nd clock rest st' r' c' fuel

/-- Probabilistic extra devices for managers. -/
def extra_devices : List (DeviceType × ℚ) :=
  [(.LAPTOP, 0.7), (.TABLET, 0.4), (.MONITOR, 0.3)]

/-- Per-manager extras loop (`for device_type, probability in extra_devices`);
the budget check happens right after a successful generation. -/
def extraTypes (nd : Nat) (clock : Clock) (emp : Employee) :
    List (DeviceType × ℚ) → DataGen → Rnd → Nat → Nat →
    Option (DataGen × Rnd × Nat)
  | [], st, r, c, _ => some (st, r, c)
  | (dt, p) :: rest, st, r, c, fuel =>
    let (q, r1) := rrandom r
    if q < p then
      let (m, r2) := rchoice (DEVICE_MODELS dt) "" r1
      match generate_device clock (c + 1) emp.empID true (some dt) (some m)
          st r2 fuel with
      | none => none
      | some (_, st', r') =>
        if nd ≤ c + 1 then some (st', r', c + 1)
        else extraTypes nd clock emp rest st' r' (c + 1) fuel
    else extraTypes nd clock emp rest st r1 c fuel

/-- Manager extras pass over `manager_employees`. -/
def extraPass (nd : Nat) (clock : Clock) :
    List Employee → DataGen → Rnd → Nat → Nat → Option (DataGen × Rnd × Nat)
  | [], st, r, c, _ => some (st, r, c)
  | e :: rest, st, r, c, fuel =>
    if nd ≤ c then some (st, r, c)
    else
      match extraTypes nd clock e extra_devices st r c fuel with
      | none => none
      | some (st', r', c') => extraPass nd clock rest st' r' c' fuel

/-- Weighted category table of the fill pass. -/
def device_weights : List (DeviceType × ℚ) :=
  [(.DESKTOP, 20), (.LAPTOP, 15), (.MONITOR, 25), (.PHONE, 15),
   (.TABLET, 10), (.KEYBOARD, 10), (.MOUSE, 5)]

/-- The ad-hoc weighted scan of the fill pass: first type whose cumulative
weight reaches the draw (non-strict `>=`); when no bucket fires, the loop
variable retains the last table entry. -/
def fillPick : List (DeviceType × ℚ) → ℚ → ℚ → DeviceType
  | [], _, _ => .MOUSE
  | [(dt, _)], _, _ => dt
  | (dt, w) :: rest, upto, q =>
    if q ≤ upto + w then dt else fillPick rest (upto + w) q

/-- The fill pass: weighted type, uniform employee, uniform model, one
device per round until the budget is reached. -/
def fillPass (nd : Nat) (clock : Clock) (emps : List Employee) :
    Nat → DataGen → Rnd → Nat → Nat → Option (DataGen × Rnd × Nat)
  | 0, st, r, c, _ => some (st, r, c)
  | k + 1, st, r, c, fuel =>
    if nd ≤ c then some (st, r, c)
    else
      let total := (device_weights.map (·.2)).sum
      let (q, r1) := runiform 0 total r
      let dt := fillPick device_weights 0 q
      let (emp, r2) := rchoice emps ⟨"", "", "", "", "", "", false⟩ r1
      let (m, r3) := rchoice (DEVICE_MODELS dt) "" r2
      match generate_device clock (c + 1) emp.empID emp.is_manager
          (some dt) (some m) st r3 fuel with
      | none => none
      | some (_, st', r') => fillPass nd clock emps k st' r' (c + 1) fuel

/-- Step 4 of `generate_all_data`: mandatory devices, manager extras, then
the weighted fill up to the device budget `nd`; the run itself uses
`nd = NUM_DEVICES`. -/
def devicesPass (nd : Nat) (clock : Clock) (st : DataGen) (r : Rnd) (fuel : Nat) :
    Option (DataGen × Rnd × Nat) :=
  match mandPass nd clock st.employees st r 0 fuel with
  | none => none
  | some (st1, r1, c1) =>
    match extraPass nd clock (st1.employees.filter (·.is_manager)) st1 r1 c1 fuel with
    | none => none
    | some (st2, r2, c2) => fillPass nd clock st2.employees (nd - c2) st2 r2 c2 fuel

/-! ### Embedding of `data_uploader.py`

Firestore is modelled as three named collections, each an association list
from document id to document, kept in the store's document order (Firestore
pages documents by id; inserting at the end abstracts that order — none of
the verified statements depend on it).  Commits are fallible: an oracle
`o : Nat → Bool` says whether the `k`-th attempted `batch.commit()` of the
run succeeds; a batch is atomic, so a failed commit applies nothing and the
exception propagates as an `Except.error` carrying the failing commit index
and the state at the raise. -/

/-- Python values as stored in the generated records. -/
inductive PyVal
  | pstr (s : String)
  | pint (n : Int)
  | pbool (b : Bool)
  | plist (l : List PyVal)
  | pdict (d : List (String × PyVal))
  deriving Repr

/-- Python `str` of an integer. -/
def intRepr (n : Int) : String :=
  if n < 0 then "-" ++ natRepr n.natAbs else natRepr n.toNat

/-- Python `str` of the scalar values the records contain (container
values never reach `str` in `upload_data`: the `isinstance` test excludes
them first). -/
def pyStr : PyVal → String
  | .pstr s => s
  | .pint n => intRepr n
  | .pbool true => "True"
  | .pbool false => "False"
  | .plist _ => ""
  | .pdict _ => ""

/-- `str(v) if not isinstance(v, (dict, list, bool)) else v`. -/
def convVal : PyVal → PyVal
  | .pdict d => .pdict d
  | .plist l => .plist l
  | .pbool b => .pbool b
  | .pstr s => .pstr (pyStr (.pstr s))
  | .pint n => .pstr (pyStr (.pint n))

/-- A Firestore document: a Python dict. -/
abbrev Doc := List (String × PyVal)

/-- The per-record field conversion of `upload_data`. -/
def convDoc (d : Doc) : Doc := d.map (fun p => (p.1, convVal p.2))

/-- A collection: docs keyed by id, in document order. -/
abbrev Collection := List (String × Doc)

/-- `BATCH_SIZE` — the 400-operation commit ceiling. -/
def BATCH_SIZE : Nat := 400

/-- `document(id).set(data)`: replace an existing doc with this id, create
it otherwise. -/
def setDoc (c : Collection) (i : String) (d : Doc) : Collection :=
  if c.any (fun p => p.1 = i) then c.map (fun p => if p.1 = i then (i, d) else p)
  else c ++ [(i, d)]

/-- The three target collections. -/
structure Colls where
  employees : Collection
  devices : Collection
  referenceData : Collection

def getColl (c : Colls) (name : String) : Collection :=
  if name = "employees" then c.employees
  else if name = "devices" then c.devices
  else c.referenceData

def setColl (c : Colls) (name : String) (v : Collection) : Colls :=
  if name = "employees" then { c with employees := v }
  else if name = "devices" then { c with devices := v }
  else { c with referenceData := v }

/-- A pending write operation of `self.batch`. -/
abbrev BOp := String × String × Doc

def applyBOp (c : Colls) (op : BOp) : Colls :=
  setColl c op.1 (setDoc (getColl c op.1) op.2.1 op.2.2)

/-- `FirebaseUploader` state: the store, the pending write batch and the
operation counters; `cIdx` numbers the next attempted commit. -/
structure U where
  colls : Colls
  batch : List BOp
  operation_count : Nat
  total_operations : Nat
  cIdx : Nat

/-- Failure outcomes: a raising `batch.commit()` (with its commit index),
or the fuel of a delete loop running out. -/
inductive UFail
  | commitFail (k : Nat) (u : U)
  | outOfFuel (u : U)

abbrev URes (α : Type) := Except UFail α

/-- Commit of the local delete batch of `delete_collection`: atomic — on
success all listed docs disappear, on failure nothing changes and the
exception propagates. -/
def commitDelBatch (o : Nat → Bool) (name : String) (ids : List String)
    (u : U) : URes U :=
  if o u.cIdx then
    .ok { u with
      colls := setColl u.colls name ((getColl u.colls name).filter (fun p => p.1 ∉ ids)),
      cIdx := u.cIdx + 1 }
  else .error (.commitFail u.cIdx { u with cIdx := u.cIdx + 1 })

/-- The `for doc in docs:` body of `delete_collection`: stage each doc,
commit-and-break when the running `deleted` counter hits a multiple of
`BATCH_SIZE`.  Returns the state, the pending local batch, the new
`deleted` counter and the page's `doc_count`. -/
def processPage (o : Nat → Bool) (name : String) :
    List String → List String → Nat → U → URes (U × List String × Nat × Nat)
  | [], batch, deleted, u => .ok (u, batch, deleted, 0)
  | d :: ds, batch, deleted, u =>
    let batch' := batch ++ [d]
    let deleted' := deleted + 1
    if deleted' % BATCH_SIZE = 0 then
      match commitDelBatch o name batch' u with
      | .error e => .error e
      | .ok u' => .ok (u', [], deleted', 1)
    else
      match processPage o name ds batch' deleted' u with
      | .error e => .error e
      | .ok (u', b', del', cnt) => .ok (u', b', del', cnt + 1)

/-- The `while True:` page loop of `delete_collection`.  After a full page
it re-queries the first remaining doc and pages on with `start_after`,
which positions strictly after that doc. -/
def deleteLoop (o : Nat → Bool) (name : String) :
    Nat → List String → List String → Nat → Nat → U →
    URes (U × List String × Nat × Nat)
  | 0, _, _, _, _, u => .error (.outOfFuel u)
  | fuel + 1, docs, batch, deleted, total, u =>
    match processPage o name docs batch deleted u with
    | .error e => .error e
    | .ok (u1, batch1, deleted1, cnt) =>
      let total1 := total + cnt
      if cnt < BATCH_SIZE then .ok (u1, batch1, deleted1, total1)
      else
        match ((getColl u1.colls name).take BATCH_SIZE).head? with
        | none => .ok (u1, batch1, deleted1, total1)
        | some last =>
          let docs' := (((getColl u1.colls name).filter
            (fun p => last.1 < p.1)).take BATCH_SIZE).map (·.1)
          deleteLoop o name fuel docs' batch1 deleted1 total1 u1

/-- `delete_collection(collection_name)`: page loop plus the trailing
commit of a partially filled delete batch. -/
def delete_collection (o : Nat → Bool) (name : String) (fuel : Nat)
    (u : U) : URes (U × Nat) :=
  let docs0 := ((getColl u.colls name).take BATCH_SIZE).map (·.1)
  match deleteLoop o name fuel docs0 [] 0 0 u with
  | .error e => .error e
  | .ok (u1, batch1, deleted1, total1) =>
    if deleted1 % BATCH_SIZE ≠ 0 then
      match commitDelBatch o name batch1 u1 with
      | .error e => .error e
      | .ok u2 => .ok (u2, total1)
    else .ok (u1, total1)

/-- `commit_batch`: flush `self.batch` when non-empty; a raising commit
logs and re-raises. -/
def commit_batch (o : Nat → Bool) (u : U) : URes U :=
  if 0 < u.operation_count then
    if o u.cIdx then
      .ok { u with colls := u.batch.foldl applyBOp u.colls, batch := [],
                   operation_count := 0, cIdx := u.cIdx + 1 }
    else .error (.commitFail u.cIdx { u with cIdx := u.cIdx + 1 })
  else .ok u

/-- `add_to_batch`: stage one `set`, auto-flushing at the ceiling. -/
def add_to_batch (o : Nat → Bool) (coll id : String) (d : Doc) (u : U) : URes U :=
  let u' := { u with batch := u.batch ++ [(coll, id, d)],
                     operation_count := u.operation_count + 1,
                     total_operations := u.total_operations + 1 }
  if BATCH_SIZE ≤ u'.operation_count then commit_batch o u' else .ok u'

/-- The `reference_data` entry of the uploaded dataset. -/
structure RefData where
  cities : List PyVal
  divisions : List PyVal
  positions : List PyVal

/-- The dataset handed to `upload_data`; `none` models a missing key. -/
structure UploadData where
  reference_data : Option RefData
  employees : Option (List Doc)
  devices : Option (List Doc)

/-- The per-record upload loop for employees/devices: derive the doc id
from the natural key, silently skip records whose id stringifies to `""`,
stringify all scalar fields of the rest. -/
def uploadRecords (o : Nat → Bool) (coll key : String) :
    List Doc → U → URes U
  | [], u => .ok u
  | rec :: rest, u =>
    let idStr := pyStr (match rec.lookup key with | some v => v | none => .pstr "")
    if idStr ≠ "" then
      match add_to_batch o coll idStr (convDoc rec) u with
      | .error e => .error e
      | .ok u' => uploadRecords o coll key rest u'
    else uploadRecords o coll key rest u

/-- The `for collection in collections_to_delete:` loop. -/
def deletePhase (o : Nat → Bool) (fuel : Nat) :
    List String → U → URes U
  | [], u => .ok u
  | name :: rest, u =>
    match delete_collection o name fuel u with
    | .error e => .error e
    | .ok (u', _) => deletePhase o fuel rest u'

/-- `upload_data(data)`: paged deletes of the three collections, then the
reference-data docs, then employees and devices in auto-flushed batches. -/
def upload_data (o : Nat → Bool) (data : UploadData) (fuel : Nat)
    (u : U) : URes U :=
  match deletePhase o fuel ["employees", "devices", "referenceData"] u with
  | .error e => .error e
  | .ok u1 =>
    let step2 : URes U :=
      match data.reference_data with
      | none => .ok u1
      | some rd =>
        match add_to_batch o "referenceData" "cities" [("cities", .plist rd.cities)] u1 with
        | .error e => .error e
        | .ok ua =>
          match add_to_batch o "referenceData" "divisions" [("divisions", .plist rd.divisions)] ua with
          | .error e => .error e
          | .ok ub =>
            add_to_batch o "referenceData" "positions" [("positions", .plist rd.positions)] ub
    match step2 with
    | .error e => .error e
    | .ok u2 =>
      let step3 : URes U :=
        match data.employees with
        | none => .ok u2
        | some emps =>
          if emps.isEmpty then .ok u2
          else
            match uploadRecords o "employees" "empID" emps u2 with
            | .error e => .error e
            | .ok u' => commit_batch o u'
      match step3 with
      | .error e => .error e
      | .ok u3 =>
        match data.devices with
        | none => .ok u3
        | some devs =>
          if devs.isEmpty then .ok u3
          else
            match uploadRecords o "devices" "ID" devs u3 with
            | .error e => .error e
            | .ok u' => commit_batch o u'

/-! ### C2: serial-number uniqueness and checksum -/

/-- A run of serial allocations: one `_generate_serial_number(model)` call
per list entry, threading the cache table; the result pairs each model with
its serial. -/
def serialRun (clock : Clock) (fuel : Nat) :
    List String → CacheTable → Option (List (String × String) × CacheTable)
  | [], t => some ([], t)
  | m :: ms, t =>
    match generate_serial_number clock m fuel t with
    | none => none
    | some (s, t') =>
      match serialRun clock fuel ms t' with
      | none => none
      | some (out, t'') => some ((m, s) :: out, t'')

/-- Re-derivation of the checksum from a stored serial: the sum of the
character codes of everything except the last character, modulo 10, equals
the numeric value of the last character. -/
def checksumOK (s : String) : Prop :=
  s.data ≠ [] ∧ digitVal (s.data.getLast?.getD '0') = sumCodes ⟨s.data.dropLast⟩ % 10

theorem allocSerial_some {yy mm : String} :
    ∀ {fuel : Nat} {c : SerialCache} {s : String} {c' : SerialCache},
    allocSerial yy mm fuel c = some (s, c') →
    s ∉ c.used ∧ c'.used = s :: c.used ∧ c'.pfx = c.pfx ∧ checksumOK s := by
  intro fuel
  induction fuel with
  | zero => intro c s c' h; exact absurd h (by simp [allocSerial])
  | succ fuel ih =>
    intro c s c' h
    rw [allocSerial] at h
    set base := serialBase c.pfx yy mm (c.counter + 1) with hbase
    by_cases hmem :
        base ++ String.singleton (digChar (sumCodes base % 10)) ∈ c.used
    · rw [if_pos hmem] at h
      have := ih h
      exact ⟨this.1, this.2.1, this.2.2.1, this.2.2.2⟩
    · rw [if_neg hmem] at h
      injection h with h1
      injection h1 with hs hc
      subst hs
      refine ⟨hmem, by rw [← hc], by rw [← hc], ?_, ?_⟩
      · rw [String.data_append]
        simp [String.singleton]
      · rw [String.data_append]
        show digitVal ((base.data ++ [digChar (sumCodes base % 10)]).getLast?.getD '0')
          = sumCodes ⟨(base.data ++ [digChar (sumCodes base % 10)]).dropLast⟩ % 10
        rw [List.getLast?_concat, List.dropLast_concat]
        simp only [Option.getD_some]
        exact digitVal_digChar _ (Nat.mod_lt _ (by norm_num))

theorem generate_serial_number_some {clock : Clock} {m : String} {fuel : Nat}
    {t : CacheTable} {s : String} {t' : CacheTable}
    (h : generate_serial_number clock m fuel t = some (s, t')) :
    checksumOK s ∧
    (∀ c0, t m = some c0 → s ∉ c0.used) ∧
    (∃ c1, t' m = some c1 ∧ s ∈ c1.used) ∧
    (∀ m' c, t m' = some c → ∃ c', t' m' = some c' ∧ c.used ⊆ c'.used) := by
  rw [generate_serial_number] at h
  set c0 := (match t m with
    | some c => c
    | none => { pfx := findPfx prefix_map m, counter := 0, used := [] } : SerialCache) with hc0
  cases halloc : allocSerial (yySt clock) (mmSt clock) fuel c0 with
  | none => rw [halloc] at h; exact absurd h (by simp)
  | some pr =>
    obtain ⟨ser, c1⟩ := pr
    rw [halloc] at h
    simp only at h
    injection h with h1
    injection h1 with hs ht
    subst hs
    obtain ⟨hfresh, hused, _, hchk⟩ := allocSerial_some halloc
    refine ⟨hchk, ?_, ?_, ?_⟩
    · intro cx hcx
      have : c0 = cx := by rw [hc0, hcx]
      rw [← this]
      exact hfresh
    · refine ⟨c1, ?_, ?_⟩
      · rw [← ht]; simp [CacheTable.set]
      · rw [hused]; exact List.mem_cons_self _ _
    · intro m' c hm'
      by_cases heq : m' = m
      · subst heq
        refine ⟨c1, by rw [← ht]; simp [CacheTable.set], ?_⟩
        have : c0 = c := by rw [hc0, hm']
        rw [hused, ← this]
        exact List.subset_cons_self _ _
      · refine ⟨c, ?_, List.Subset.refl _⟩
        rw [← ht]
        simp only [CacheTable.set, if_neg heq]
        exact hm'

theorem serialRun_props (clock : Clock) (fuel : Nat) :
    ∀ (ms : List String) (t : CacheTable) (out : List (String × String))
      (t' : CacheTable), serialRun clock fuel ms t = some (out, t') →
    (∀ p ∈ out, checksumOK p.2) ∧
    (∀ p ∈ out, ∀ c0, t p.1 = some c0 → p.2 ∉ c0.used) ∧
    (∀ m c, t m = some c → ∃ c', t' m = some c' ∧ c.used ⊆ c'.used) ∧
    List.Pairwise (fun a b => a.1 = b.1 → a.2 ≠ b.2) out := by
  intro ms
  induction ms with
  | nil =>
    intro t out t' h
    rw [serialRun] at h
    injection h with h1
    injection h1 with ho ht
    subst ho
    exact ⟨by simp, by simp, fun m c hc => ⟨c, by rw [← ht]; exact hc, List.Subset.refl _⟩,
      by simp⟩
  | cons m ms ih =>
    intro t out t' h
    rw [serialRun] at h
    cases hgen : generate_serial_number clock m fuel t with
    | none => rw [hgen] at h; exact absurd h (by simp)
    | some pr =>
      obtain ⟨s, t1⟩ := pr
      rw [hgen] at h
      simp only at h
      cases hrun : serialRun clock fuel ms t1 with
      | none => rw [hrun] at h; exact absurd h (by simp)
      | some pr2 =>
        obtain ⟨out1, t2⟩ := pr2
        rw [hrun] at h
        simp only at h
        injection h with h1
        injection h1 with ho ht
        subst ho
        obtain ⟨hchk, hfresh, ⟨c1, hc1, hsc1⟩, hmono⟩ :=
          generate_serial_number_some hgen
        obtain ⟨ihA, ihB, ihC, ihD⟩ := ih t1 out1 t2 hrun
        refine ⟨?_, ?_, ?_, ?_⟩
        · intro p hp
          rcases List.mem_cons.1 hp with rfl | hp
          · exact hchk
          · exact ihA p hp
        · intro p hp c0 hc0
          rcases List.mem_cons.1 hp with rfl | hp
          · exact hfresh c0 hc0
          · obtain ⟨c', hc', hsub⟩ := hmono p.1 c0 hc0
            intro hmemp
            exact ihB p hp c' hc' (hsub hmemp)
        · intro m' c hm'
          obtain ⟨ca, hca, hsa⟩ := hmono m' c hm'
          obtain ⟨cb, hcb, hsb⟩ := ihC m' ca hca
          rw [← ht]
          exact ⟨cb, hcb, hsa.trans hsb⟩
        · refine List.pairwise_cons.2 ⟨?_, ihD⟩
          intro p hp heq hval
          have hB := ihB p hp c1 (by rw [← heq]; exact hc1)
          rw [← hval] at hB
          exact hB hsc1

/-- C2 — For a run of `_generate_serial_number` calls starting from the
fresh cache table, the produced serials are unique per model across the
run, and for every serial the sum of the character codes of the
un-checksummed prefix, modulo 10, re-derives the stored last digit. -/
theorem C2_serials_unique_and_checksummed (clock : Clock) (fuel : Nat)
    (ms : List String) (out : List (String × String)) (t' : CacheTable)
    (h : serialRun clock fuel ms ∅ = some (out, t')) :
    List.Pairwise (fun a b => a.1 = b.1 → a.2 ≠ b.2) out ∧
    ∀ p ∈ out, checksumOK p.2 := by
  obtain ⟨hA, _, _, hD⟩ := serialRun_props clock fuel ms ∅ out t' h
  exact ⟨hD, hA⟩

/-- C2 witness: a concrete three-allocation run (two allocations for one
model, one for another). -/
theorem C2_serials_witness :
    List.Pairwise (fun a b => a.1 = b.1 → a.2 ≠ b.2)
      ((serialRun ⟨2025, 10, 20000⟩ 3 ["Dell U2419H", "Dell U2419H", "Logitech K120"] ∅).getD
        ([], ∅)).1 ∧
    ∀ p ∈ ((serialRun ⟨2025, 10, 20000⟩ 3 ["Dell U2419H", "Dell U2419H", "Logitech K120"] ∅).getD
        ([], ∅)).1, checksumOK p.2 :=
  C2_serials_unique_and_checksummed ⟨2025, 10, 20000⟩ 3
    ["Dell U2419H", "Dell U2419H", "Logitech K120"]
    ((serialRun ⟨2025, 10, 20000⟩ 3 ["Dell U2419H", "Dell U2419H", "Logitech K120"] ∅).getD
        ([], ∅)).1
    ((serialRun ⟨2025, 10, 20000⟩ 3 ["Dell U2419H", "Dell U2419H", "Logitech K120"] ∅).getD
        ([], ∅)).2
    (by with_unfolding_all rfl)

/-! ### C1: staff numbers -/

/-- The configured staff-number format: exactly eight decimal digits. -/
def isTn8 (s : String) : Prop :=
  s.length = 8 ∧ ∀ c ∈ s.data, c.isDigit = true

instance (s : String) : Decidable (isTn8 s) := by
  unfold isTn8; infer_instance

theorem allocTN_some :
    ∀ {fuel : Nat} {used : List String} {r : Rnd} {tn : String}
      {used' : List String} {r' : Rnd},
    allocTN fuel used r = some (tn, used', r') →
    tn ∉ used ∧ used' = tn :: used ∧ isTn8 tn := by
  intro fuel
  induction fuel with
  | zero => intro used r tn used' r' h; exact absurd h (by simp [allocTN])
  | succ fuel ih =>
    intro used r tn used' r' h
    rw [allocTN] at h
    simp only at h
    by_cases hmem : fmt0 8 (randint 1 99999999 r).1 ∈ used
    · rw [if_pos hmem] at h
      exact ih h
    · rw [if_neg hmem] at h
      injection h with h1
      injection h1 with htn h2
      injection h2 with hused hr
      subst htn
      refine ⟨hmem, hused.symm, ?_, fmt0_digits _ _⟩
      have hb := randint_bounds 1 99999999 r (by norm_num)
      exact fmt0_length 8 _ (by omega)

/-- Employee-list invariant: staff numbers well-formed, pairwise distinct,
and all recorded in the used-set. -/
def TnInv (st : DataGen) : Prop :=
  (∀ e ∈ st.employees, isTn8 e.tn) ∧
  (st.employees.map (·.tn)).Nodup ∧
  (∀ e ∈ st.employees, e.tn ∈ st.used_tns)

theorem generate_employee_inv {i : Nat} {st : DataGen} {r : Rnd} {fuel : Nat}
    {emp : Employee} {st' : DataGen} {r' : Rnd}
    (h : generate_employee i st r fuel = some (emp, st', r'))
    (hinv : TnInv st) : TnInv st' := by
  rw [generate_employee] at h
  simp only at h
  cases halloc : allocTN fuel st.used_tns (generate_fio r).2 with
  | none => rw [halloc] at h; exact absurd h (by simp)
  | some trip =>
    obtain ⟨tn, used', r2⟩ := trip
    rw [halloc] at h
    simp only at h
    obtain ⟨hfresh, hused, htn8⟩ := allocTN_some halloc
    injection h with h1
    injection h1 with hemp h2
    injection h2 with hst hr
    obtain ⟨hA, hB, hC⟩ := hinv
    refine ⟨?_, ?_, ?_⟩ <;> rw [← hst] <;> simp only
    · intro e he
      rcases List.mem_append.1 he with he | he
      · exact hA e he
      · rw [List.mem_singleton.1 he]
        exact htn8
    · rw [List.map_append]
      simp only [List.map_cons, List.map_nil]
      rw [List.nodup_append]
      refine ⟨hB, List.nodup_singleton _, ?_⟩
      intro t ht hts
      rw [List.mem_singleton] at hts
      subst hts
      rw [List.mem_map] at ht
      obtain ⟨e, he, htn⟩ := ht
      exact hfresh (htn ▸ hC e he)
    · intro e he
      rw [hused]
      rcases List.mem_append.1 he with he | he
      · exact List.mem_cons_of_mem _ (hC e he)
      · rw [List.mem_singleton.1 he]
        exact List.mem_cons_self _ _

theorem employeesPass_inv :
    ∀ {n i : Nat} {st : DataGen} {r : Rnd} {fuel : Nat} {res : DataGen × Rnd},
    employeesPass n i st r fuel = some res → TnInv st → TnInv res.1 := by
  intro n
  induction n with
  | zero =>
    intro i st r fuel res h hinv
    rw [employeesPass] at h
    injection h with h1
    rw [← h1]
    exact hinv
  | succ n ih =>
    intro i st r fuel res h hinv
    rw [employeesPass] at h
    cases hgen : generate_employee i st r fuel with
    | none => rw [hgen] at h; exact absurd h (by simp)
    | some trip =>
      obtain ⟨emp, st1, r1⟩ := trip
      rw [hgen] at h
      simp only at h
      exact ih h (generate_employee_inv hgen hinv)

/-- C1 (amended) — Employees produced by the normal path of
`generate_employee` have pairwise-distinct staff numbers that exactly match
the 8-digit numeric format; the per-entity error-recovery path instead
returns a stub whose staff number is the empty string (so neither the
format nor uniqueness extends to it). -/
theorem C1_staff_numbers (n i fuel : Nat) (r : Rnd) (res : DataGen × Rnd)
    (h : employeesPass n i DataGen.init r fuel = some res) :
    ((∀ e ∈ res.1.employees, isTn8 e.tn) ∧
      (res.1.employees.map (·.tn)).Nodup) ∧
    ∀ j : Nat, ∀ r' : Rnd, (generate_employee_recovery j r').tn = "" := by
  have hinit : TnInv DataGen.init := by
    refine ⟨?_, ?_, ?_⟩ <;> simp [DataGen.init]
  obtain ⟨hA, hB, _⟩ := employeesPass_inv h hinit
  exact ⟨⟨hA, hB⟩, fun j r' => rfl⟩

/-- C1 counterexample — the employee produced by the error-recovery path of
`generate_employee` carries the empty staff number: it does not match the
8-digit format, and two recovery stubs share it, so the claim fails as
stated for that path. -/
theorem C1_counterexample :
    (generate_employee_recovery 1 ⟨fun _ => 0, fun _ => 0, 0⟩).tn = "" ∧
    ¬ isTn8 (generate_employee_recovery 1 ⟨fun _ => 0, fun _ => 0, 0⟩).tn ∧
    (generate_employee_recovery 1 ⟨fun _ => 0, fun _ => 0, 0⟩).tn =
      (generate_employee_recovery 2 ⟨fun _ => 0, fun _ => 0, 0⟩).tn := by
  refine ⟨rfl, ?_, rfl⟩
  intro htn
  have := htn.1
  simp [generate_employee_recovery, String.length] at this

/-- C1 witness: a concrete two-employee run. -/
theorem C1_staff_numbers_witness :
    ((∀ e ∈ ((employeesPass 2 1 DataGen.init ⟨id, fun _ => 0, 0⟩ 1).getD
        (DataGen.init, ⟨id, fun _ => 0, 0⟩)).1.employees, isTn8 e.tn) ∧
      (((employeesPass 2 1 DataGen.init ⟨id, fun _ => 0, 0⟩ 1).getD
        (DataGen.init, ⟨id, fun _ => 0, 0⟩)).1.employees.map (·.tn)).Nodup) ∧
    ∀ j : Nat, ∀ r' : Rnd, (generate_employee_recovery j r').tn = "" :=
  C1_staff_numbers 2 1 1 ⟨id, fun _ => 0, 0⟩
    ((employeesPass 2 1 DataGen.init ⟨id, fun _ => 0, 0⟩ 1).getD
        (DataGen.init, ⟨id, fun _ => 0, 0⟩)) (by with_unfolding_all rfl)

/-! ### C8: allocation retries are unbounded -/

set_option maxRecDepth 40000 in
/-- C8 counterexample — one thousand colliding redraws of the staff-number
loop: the allocator is still redrawing (`none` means the `while True:` loop
has not returned), and no allocation-exhausted error has been signalled;
the code has no error signal at all. -/
theorem C8_counterexample :
    allocTN 1000 ["00000001"] ⟨fun _ => 0, fun _ => 0, 0⟩ = none := by
  with_unfolding_all rfl

/-- C8 (amended) — identifier allocation redraws on collision without any
bound on the number of attempts and never signals exhaustion: against a
source that keeps producing an already-used staff number the loop runs
forever (no fuel makes it return), and when allocation does return, it is
only because a fresh candidate was drawn. -/
theorem C8_unbounded_redraw :
    (∀ fuel i : Nat, allocTN fuel ["00000001"] ⟨fun _ => 0, fun _ => 0, i⟩ = none) ∧
    (∀ (fuel : Nat) (used : List String) (r : Rnd) (tn : String)
      (used' : List String) (r' : Rnd),
      allocTN fuel used r = some (tn, used', r') → tn ∉ used) := by
  constructor
  · intro fuel
    induction fuel with
    | zero => intro i; rfl
    | succ fuel ih =>
      intro i
      rw [allocTN]
      have hdraw : fmt0 8 (randint 1 99999999 ⟨fun _ => 0, fun _ => 0, i⟩).1
          = "00000001" := by with_unfolding_all rfl
      simp only [hdraw]
      rw [if_pos (List.mem_singleton.2 rfl)]
      exact ih (i + 1)
  · intro fuel used r tn used' r' h
    exact (allocTN_some h).1

/-- C8 witness: the colliding oracle at five rounds, and a successful
fresh allocation. -/
theorem C8_unbounded_redraw_witness :
    allocTN 5 ["00000001"] ⟨fun _ => 0, fun _ => 0, 0⟩ = none ∧
    "00000002" ∉ (["00000001"] : List String) :=
  ⟨C8_unbounded_redraw.1 5 0,
   C8_unbounded_redraw.2 1 ["00000001"] ⟨fun _ => 1, fun _ => 0, 0⟩
     "00000002" ["00000002", "00000001"] ⟨fun _ => 1, fun _ => 0, 1⟩
     (by with_unfolding_all rfl)⟩

/-! ### C9: condition score buckets -/

/-- Civil day number (days since 1970-01-01, Gregorian); Python's
`date` subtraction yields exactly the difference of day numbers. -/
def civilDays (y m d : Int) : Int :=
  let y1 := if m ≤ 2 then y - 1 else y
  let era := (if 0 ≤ y1 then y1 else y1 - 399) / 400
  let yoe := y1 - era * 400
  let doy := (153 * ((m + 9) % 12) + 2) / 5 + d - 1
  let doe := yoe * 365 + yoe / 4 - yoe / 100 + doy
  era * 146097 + doe - 719468

/-- The day-based base-score bucket actually used by `_calculate_ctc`. -/
def dayBucket (age : Int) : Int × Int :=
  if age < 180 then (80, 100)
  else if age < 365 then (70, 95)
  else if age < 730 then (60, 85)
  else if age < 1460 then (40, 70)
  else (20, 50)

/-- Modelled from the spec (claim side, for comparison only): the claimed
condition-score envelope — month-keyed buckets `≤ 12 → [80,100]`,
`12–36 → [50,90]`, `> 36 → [10,60]`, an independent ±5 jitter and clamping
to `[1,100]`. -/
def specCtcOK (months v : Int) : Prop :=
  (months ≤ 12 → 75 ≤ v ∧ v ≤ 100) ∧
  (12 < months → months ≤ 36 → 45 ≤ v ∧ v ≤ 95) ∧
  (36 < months → 5 ≤ v ∧ v ≤ 65)

instance (months v : Int) : Decidable (specCtcOK months v) := by
  unfold specCtcOK; infer_instance

/-- C9 counterexample — a device received 2022-11-15 scored at 2025-10-01:
35 months old (inside the claimed `12–36 → [50,90]` bucket, admissible
envelope `[45, 95]` after ±5 and clamping), yet `_calculate_ctc` — the
function `generate_device` actually calls — can produce 35, because its
real buckets are day-based (`730 ≤ 1051 < 1460 → [40, 70]`). -/
theorem C9_counterexample :
    (calculate_ctc ⟨2025, 10, civilDays 2025 10 1⟩ (civilDays 2022 11 15)
      ⟨fun _ => 0, fun _ => 0, 0⟩).1 = 35 ∧
    monthsBetween ⟨2025, 10, civilDays 2025 10 1⟩ 2022 11 = 35 ∧
    civilDays 2025 10 1 - civilDays 2022 11 15 = 1051 ∧
    ¬ specCtcOK 35 35 := by
  refine ⟨by with_unfolding_all rfl, by with_unfolding_all rfl,
    by with_unfolding_all rfl, ?_⟩
  intro hok
  have := hok.2.1 (by norm_num) (by norm_num)
  omega

/-- C9 (amended) — the condition score used for generated devices comes
from `_calculate_ctc`: a base drawn from the day-keyed buckets
`< 180 → [80,100]`, `< 365 → [70,95]`, `< 730 → [60,85]`,
`< 1460 → [40,70]`, `≥ 1460 → [20,50]`, plus an independent ±5 jitter,
clamped to `[1,100]`.  The month-keyed table the claim cites
(`≤ 12 → [80,100]`, `≤ 36 → [50,90]`, else `[10,60]`) belongs to the
separate, uncalled `_generate_ctc`, which applies no jitter and no
clamping. -/
theorem C9_ctc_ranges (clock : Clock) (receipt : Int) (r : Rnd) :
    (1 ≤ (calculate_ctc clock receipt r).1 ∧ (calculate_ctc clock receipt r).1 ≤ 100) ∧
    (max 1 ((dayBucket (clock.dayNum - receipt)).1 - 5) ≤ (calculate_ctc clock receipt r).1 ∧
      (calculate_ctc clock receipt r).1 ≤ min 100 ((dayBucket (clock.dayNum - receipt)).2 + 5)) ∧
    (∀ y m : Nat,
      (monthsBetween clock y m ≤ 12 →
        80 ≤ (generate_ctc clock y m r).1 ∧ (generate_ctc clock y m r).1 ≤ 100) ∧
      (12 < monthsBetween clock y m → monthsBetween clock y m ≤ 36 →
        50 ≤ (generate_ctc clock y m r).1 ∧ (generate_ctc clock y m r).1 ≤ 90) ∧
      (36 < monthsBetween clock y m →
        10 ≤ (generate_ctc clock y m r).1 ∧ (generate_ctc clock y m r).1 ≤ 60)) := by
  have hjit := randintI_bounds (-5) 5 ((if clock.dayNum - receipt < 180 then randint 80 100 r
    else if clock.dayNum - receipt < 365 then randint 70 95 r
    else if clock.dayNum - receipt < 730 then randint 60 85 r
    else if clock.dayNum - receipt < 1460 then randint 40 70 r
    else randint 20 50 r).2) (by norm_num)
  constructor
  · unfold calculate_ctc
    simp only
    omega
  constructor
  · unfold calculate_ctc dayBucket
    simp only
    split_ifs with h1 h2 h3 h4
    · have hb := randint_bounds 80 100 r (by norm_num)
      rw [if_pos h1] at hjit
      omega
    · have hb := randint_bounds 70 95 r (by norm_num)
      rw [if_neg h1, if_pos h2] at hjit
      omega
    · have hb := randint_bounds 60 85 r (by norm_num)
      rw [if_neg h1, if_neg h2, if_pos h3] at hjit
      omega
    · have hb := randint_bounds 40 70 r (by norm_num)
      rw [if_neg h1, if_neg h2, if_neg h3, if_pos h4] at hjit
      omega
    · have hb := randint_bounds 20 50 r (by norm_num)
      rw [if_neg h1, if_neg h2, if_neg h3, if_neg h4] at hjit
      omega
  · intro y m
    unfold generate_ctc
    refine ⟨?_, ?_, ?_⟩
    · intro h12
      rw [if_pos (show monthsBetween clock y m ≤ 12 from h12)]
      exact randint_bounds 80 100 r (by norm_num)
    · intro h12 h36
      rw [if_neg (by omega), if_pos (show monthsBetween clock y m ≤ 36 from h36)]
      exact randint_bounds 50 90 r (by norm_num)
    · intro h36
      rw [if_neg (by omega), if_neg (by omega)]
      exact randint_bounds 10 60 r (by norm_num)

/-- C9 witness: the ranges at a concrete clock, receipt date and oracle. -/
theorem C9_ctc_ranges_witness :
    (1 ≤ (calculate_ctc ⟨2025, 10, 20366⟩ 19000 ⟨fun _ => 0, fun _ => 0, 0⟩).1 ∧
      (calculate_ctc ⟨2025, 10, 20366⟩ 19000 ⟨fun _ => 0, fun _ => 0, 0⟩).1 ≤ 100) ∧
    (80 ≤ (generate_ctc ⟨2025, 10, 20366⟩ 2025 3 ⟨fun _ => 0, fun _ => 0, 0⟩).1 ∧
      (generate_ctc ⟨2025, 10, 20366⟩ 2025 3 ⟨fun _ => 0, fun _ => 0, 0⟩).1 ≤ 100) := by
  have h := C9_ctc_ranges ⟨2025, 10, 20366⟩ 19000 ⟨fun _ => 0, fun _ => 0, 0⟩
  refine ⟨h.1, ?_⟩
  exact ((h.2.2 2025 3).1 (by with_unfolding_all decide))

/-! ### C7: name-batch validation and fallback -/

/-- A well-formed name line: exactly three whitespace-delimited tokens. -/
def wellFormed3 (s : String) : Prop := (pyTokens s).length = 3

instance (s : String) : Decidable (wellFormed3 s) := by
  unfold wellFormed3; infer_instance

theorem splitChars_nosep (p : Char → Bool) :
    ∀ (w rest acc : List Char), (∀ c ∈ w, p c = false) →
    splitChars p (w ++ rest) acc = splitChars p rest (w.reverse ++ acc) := by
  intro w
  induction w with
  | nil => intro rest acc _; simp
  | cons ch w ih =>
    intro rest acc hw
    have hch : p ch = false := hw ch (List.mem_cons_self _ _)
    show splitChars p (ch :: (w ++ rest)) acc = _
    rw [splitChars, hch]
    simp only [Bool.false_eq_true, if_false]
    rw [ih rest (ch :: acc) (fun c hc => hw c (List.mem_cons_of_mem _ hc))]
    simp

theorem splitChars_sep (p : Char → Bool) (sep : Char) (hsep : p sep = true)
    (rest acc : List Char) :
    splitChars p (sep :: rest) acc = acc.reverse :: splitChars p rest [] := by
  rw [splitChars, hsep]
  simp

/-- A string of the shape `a ++ " " ++ b ++ " " ++ c` with nonempty,
whitespace-free components tokenises to exactly `[a, b, c]`. -/
theorem pyTokens_three (a b c : String)
    (ha : a.data ≠ [] ∧ ∀ ch ∈ a.data, ch.isWhitespace = false)
    (hb : b.data ≠ [] ∧ ∀ ch ∈ b.data, ch.isWhitespace = false)
    (hc : c.data ≠ [] ∧ ∀ ch ∈ c.data, ch.isWhitespace = false) :
    pyTokens (a ++ " " ++ b ++ " " ++ c) = [a, b, c] := by
  have hdata : (a ++ " " ++ b ++ " " ++ c).data
      = a.data ++ (' ' :: (b.data ++ (' ' :: c.data))) := by
    simp [String.data_append]
  unfold pyTokens pySplit
  rw [hdata]
  have hsp : (fun ch : Char => ch.isWhitespace) ' ' = true := by decide
  rw [splitChars_nosep _ a.data _ [] ha.2]
  rw [splitChars_sep _ ' ' hsp]
  rw [splitChars_nosep _ b.data _ [] hb.2]
  rw [splitChars_sep _ ' ' hsp]
  rw [show c.data = c.data ++ ([] : List Char) from (List.append_nil _).symm,
    splitChars_nosep _ c.data [] [] hc.2]
  simp only [splitChars, List.append_nil, List.reverse_reverse, List.map_cons, List.map_nil]
  have hea : (⟨a.data⟩ : String) = a := rfl
  have heb : (⟨b.data⟩ : String) = b := rfl
  have hec : (⟨c.data⟩ : String) = c := rfl
  rw [hea, heb, hec]
  have hane : a ≠ "" := fun h => ha.1 (congrArg String.data h)
  have hbne : b ≠ "" := fun h => hb.1 (congrArg String.data h)
  have hcne : c ≠ "" := fun h => hc.1 (congrArg String.data h)
  simp [List.filter_cons, hane, hbne, hcne]

theorem generate_fio_wf3 (r : Rnd) : wellFormed3 (generate_fio r).1 := by
  have htabL : ∀ s ∈ last_names, s.data ≠ [] ∧ ∀ ch ∈ s.data, ch.isWhitespace = false := by
    decide
  have htabF : ∀ s ∈ first_names, s.data ≠ [] ∧ ∀ ch ∈ s.data, ch.isWhitespace = false := by
    decide
  have htabM : ∀ s ∈ middle_names, s.data ≠ [] ∧ ∀ ch ∈ s.data, ch.isWhitespace = false := by
    decide
  have hL := rchoice_mem last_names "" r (by decide)
  have hF := rchoice_mem first_names "" (rchoice last_names "" r).2 (by decide)
  have hM := rchoice_mem middle_names ""
    (rchoice first_names "" (rchoice last_names "" r).2).2 (by decide)
  show wellFormed3 ((rchoice last_names "" r).1 ++ " "
    ++ (rchoice first_names "" (rchoice last_names "" r).2).1 ++ " "
    ++ (rchoice middle_names "" (rchoice first_names "" (rchoice last_names "" r).2).2).1)
  unfold wellFormed3
  rw [pyTokens_three _ _ _ (htabL _ hL) (htabF _ hF) (htabM _ hM)]
  rfl

theorem fallbackFios_props : ∀ (n : Nat) (r : Rnd),
    (fallbackFios n r).1.length = n ∧ ∀ f ∈ (fallbackFios n r).1, wellFormed3 f := by
  intro n
  induction n with
  | zero => intro r; exact ⟨rfl, by simp [fallbackFios]⟩
  | succ n ih =>
    intro r
    constructor
    · show ((generate_fio r).1 :: (fallbackFios n (generate_fio r).2).1).length = n + 1
      simp [(ih (generate_fio r).2).1]
    · show ∀ f ∈ (generate_fio r).1 :: (fallbackFios n (generate_fio r).2).1, wellFormed3 f
      intro f hf
      rcases List.mem_cons.1 hf with rfl | hf
      · exact generate_fio_wf3 r
      · exact (ih (generate_fio r).2).2 f hf

/-- C7 counterexample — a service response whose single line has one token
(0% of lines well-formed, far below the claimed 80% threshold) is accepted
into the name cache unchanged: `_generate_fios_batch` performs no
validation and no retry. -/
theorem C7_counterexample :
    (generate_fios_batch (some "Иванов") 10 [] ⟨fun _ => 0, fun _ => 0, 0⟩).1
      = ["Иванов"] ∧
    ¬ wellFormed3 "Иванов" := by
  exact ⟨by with_unfolding_all rfl, by decide⟩

/-- C7 (amended) — the batch fetch accepts every non-empty stripped line of
the response with no 80% well-formedness check and no retry loop; only when
the request raises and the cache is empty does it fall back to the local
generator, which fills the cache with `count` names; every locally
generated name, and hence every name the fallback produces, has exactly
three whitespace-delimited tokens. -/
theorem C7_no_validation_local_fallback :
    (∀ (content : String) (count : Nat) (cache : List String) (r : Rnd),
      (∀ line ∈ cache, line ∈ (generate_fios_batch (some content) count cache r).1) ∧
      (∀ line ∈ ((pySplit (· == '\n') content).map pyStrip).filter (· ≠ ""),
        line ∈ (generate_fios_batch (some content) count cache r).1)) ∧
    (∀ (count : Nat) (r : Rnd),
      (generate_fios_batch none count [] r).1.length = count ∧
      ∀ f ∈ (generate_fios_batch none count [] r).1, wellFormed3 f) ∧
    (∀ r : Rnd, wellFormed3 (generate_fio r).1) := by
  refine ⟨?_, ?_, generate_fio_wf3⟩
  · intro content count cache r
    constructor
    · intro line hl
      show line ∈ cache ++ _
      exact List.mem_append_left _ hl
    · intro line hl
      show line ∈ cache ++ _
      exact List.mem_append_right _ hl
  · intro count r
    show (fallbackFios count r).1.length = count ∧
      ∀ f ∈ (fallbackFios count r).1, wellFormed3 f
    exact fallbackFios_props count r

/-- C7 witness: concrete cache retention, fallback length and a locally
generated three-token name. -/
theorem C7_no_validation_local_fallback_witness :
    "c" ∈ (generate_fios_batch (some "x") 1 ["c"] ⟨fun _ => 0, fun _ => 0, 0⟩).1 ∧
    (generate_fios_batch none 2 [] ⟨fun _ => 0, fun _ => 0, 0⟩).1.length = 2 ∧
    wellFormed3 (generate_fio ⟨fun _ => 0, fun _ => 0, 0⟩).1 :=
  ⟨(C7_no_validation_local_fallback.1 "x" 1 ["c"] ⟨fun _ => 0, fun _ => 0, 0⟩).1 "c"
      (List.mem_singleton.2 rfl),
   (C7_no_validation_local_fallback.2.1 2 ⟨fun _ => 0, fun _ => 0, 0⟩).1,
   C7_no_validation_local_fallback.2.2 ⟨fun _ => 0, fun _ => 0, 0⟩⟩

/-! ### C5: division assignment and the hierarchy -/

/-- Parent-chain check: following `parent_id` (looked up by id) must reach
a `parent_id = None` division of level 0, with the level dropping by
exactly one per step, within the given fuel — this rules out cycles and
non-monotonic levels. -/
def chainOK (divs : List Division) : Nat → Division → Bool
  | fuel, d =>
    match d.parent_id, fuel with
    | none, _ => d.level == 0
    | some _, 0 => false
    | some pid, fuel + 1 =>
      match divs.find? (fun p => p.id == pid) with
      | none => false
      | some p => (p.level + 1 == d.level) && chainOK divs fuel p

theorem wpick_levels (q : ℚ) :
    wpick LEVEL_WEIGHTS 0 q = 0 ∨ wpick LEVEL_WEIGHTS 0 q = 1 ∨
    wpick LEVEL_WEIGHTS 0 q = 2 ∨ wpick LEVEL_WEIGHTS 0 q = 3 := by
  simp only [LEVEL_WEIGHTS, wpick]
  split_ifs <;> simp

theorem levelGroup_nonempty :
    levelGroup generate_divisions 0 ≠ [] ∧ levelGroup generate_divisions 1 ≠ [] ∧
    levelGroup generate_divisions 2 ≠ [] ∧ levelGroup generate_divisions 3 ≠ [] := by
  refine ⟨?_, ?_, ?_, ?_⟩ <;> with_unfolding_all decide

/-- C5 — Division assignment samples the hierarchy level with the fixed
cumulative thresholds 2% / 8% / 30% / 60% (first conjunct: the selection
function realises exactly those buckets on a unit draw), picks uniformly
among the divisions of the drawn level (fourth conjunct: every division of
a level is reachable by some draw), and afterwards every employee's
`division` is the name of a division of the generated hierarchy (second
conjunct); in that hierarchy every parent chain reaches a level-0 root,
dropping exactly one level per step — so it is acyclic with strictly
monotonic levels (third conjunct). -/
theorem C5_division_assignment :
    (∀ q : ℚ, 0 ≤ q → q < 1 →
      wpick LEVEL_WEIGHTS 0 q =
        (if q < 0.02 then 0 else if q < 0.1 then 1 else if q < 0.4 then 2 else 3)) ∧
    (∀ (emps : List Employee) (r : Rnd) (e : Employee),
      e ∈ (assign_divisions generate_divisions emps r).1 →
      ∃ d ∈ generate_divisions, e.division = d.name) ∧
    (∀ d ∈ generate_divisions, chainOK generate_divisions 3 d = true) ∧
    (∀ lv : Nat, ∀ d ∈ levelGroup generate_divisions lv,
      ∃ r : Rnd, (rchoice (levelGroup generate_divisions lv) ⟨0, "", 0, none⟩ r).1 = d) := by
  refine ⟨?_, ?_, ?_, ?_⟩
  · intro q h0 h1
    simp only [LEVEL_WEIGHTS, wpick]
    have hsum : ((0 : ℚ)) * 1 = 0 := by norm_num
    split_ifs with a1 a2 a3 a4 b1 b2 b3 b4 <;> try rfl
    all_goals (exfalso; try linarith)
  · intro emps
    induction emps with
    | nil => intro r e he; simp [assign_divisions] at he
    | cons e0 rest ih =>
      intro r e he
      rw [assign_divisions] at he
      simp only [List.mem_cons] at he
      rcases he with rfl | he
      · set lv := (weightedChoices LEVEL_WEIGHTS 0 r).1 with hlv
        have hne : levelGroup generate_divisions lv ≠ [] := by
          have hl := wpick_levels (r.rat.1 * ((LEVEL_WEIGHTS.map (·.2)).sum))
          have : lv = wpick LEVEL_WEIGHTS 0 (r.rat.1 * ((LEVEL_WEIGHTS.map (·.2)).sum)) := rfl
          rw [this]
          rcases hl with h | h | h | h <;> rw [h]
          · exact levelGroup_nonempty.1
          · exact levelGroup_nonempty.2.1
          · exact levelGroup_nonempty.2.2.1
          · exact levelGroup_nonempty.2.2.2
        have hmem := rchoice_mem (levelGroup generate_divisions lv) ⟨0, "", 0, none⟩
          (weightedChoices LEVEL_WEIGHTS 0 r).2 hne
        refine ⟨_, List.mem_of_mem_filter hmem, rfl⟩
      · exact ih _ _ he
  · intro d hd
    revert d
    with_unfolding_all decide
  · intro lv d hd
    exact rchoice_surjective _ ⟨0, "", 0, none⟩ d hd

/-- C5 witness: the threshold function at the draw 1/4, a one-employee
assignment run, the chain check on the first division, and reachability of
the first level-0 division. -/
theorem C5_division_assignment_witness :
    wpick LEVEL_WEIGHTS 0 (1/4 : ℚ) = 2 ∧
    (∃ d ∈ generate_divisions,
      (((assign_divisions generate_divisions
          [⟨"1", "f", "00000001", "p", "", "loc", false⟩]
          ⟨fun _ => 0, fun _ => 0, 0⟩).1.headD
            ⟨"1", "f", "00000001", "p", "", "loc", false⟩).division = d.name)) ∧
    chainOK generate_divisions 3 ⟨1, "Центр Розничного бизнеса", 0, none⟩ = true ∧
    ∃ r : Rnd, (rchoice (levelGroup generate_divisions 0) ⟨0, "", 0, none⟩ r).1
      = ⟨1, "Центр Розничного бизнеса", 0, none⟩ := by
  refine ⟨?_, ?_, ?_, ?_⟩
  · rw [C5_division_assignment.1 (1/4 : ℚ) (by norm_num) (by norm_num)]
    norm_num
  · exact C5_division_assignment.2.1
      [⟨"1", "f", "00000001", "p", "", "loc", false⟩] ⟨fun _ => 0, fun _ => 0, 0⟩ _
      (by with_unfolding_all decide)
  · exact C5_division_assignment.2.2.1 ⟨1, "Центр Розничного бизнеса", 0, none⟩
      (by with_unfolding_all decide)
  · exact C5_division_assignment.2.2.2 0 ⟨1, "Центр Розничного бизнеса", 0, none⟩
      (by with_unfolding_all decide)

/-! ### C4: the mandatory device set -/

/-- The employee owns a device of the given category: a generated device
whose `emp_id` is the employee's id and whose nomenclature starts with the
category's enum value. -/
def hasCat (devs : List Device) (empID : String) (dt : DeviceType) : Prop :=
  ∃ d ∈ devs, d.emp_id = empID ∧ ∃ suf, d.nomenclature = DeviceType.val dt ++ suf

/-- The claimed mandatory set: desktop, keyboard, mouse, phone and at least
one monitor. -/
def hasMandatory (devs : List Device) (e : Employee) : Prop :=
  hasCat devs e.empID .DESKTOP ∧ hasCat devs e.empID .KEYBOARD ∧
  hasCat devs e.empID .MOUSE ∧ hasCat devs e.empID .PHONE ∧
  hasCat devs e.empID .MONITOR

theorem hasCat_ext {devs : List Device} {tail : List Device} {empID : String}
    {dt : DeviceType} (h : hasCat devs empID dt) : hasCat (devs ++ tail) empID dt := by
  obtain ⟨d, hd, he, suf, hn⟩ := h
  exact ⟨d, List.mem_append_left _ hd, he, suf, hn⟩

theorem hasMandatory_ext {devs tail : List Device} {e : Employee}
    (h : hasMandatory devs e) : hasMandatory (devs ++ tail) e :=
  ⟨hasCat_ext h.1, hasCat_ext h.2.1, hasCat_ext h.2.2.1, hasCat_ext h.2.2.2.1,
   hasCat_ext h.2.2.2.2⟩

theorem generate_device_spec {clock : Clock} {id0 : Nat} {emp : String} {mgr : Bool}
    {dt : DeviceType} {m : String} {st : DataGen} {r : Rnd} {fuel : Nat}
    {d : Device} {st' : DataGen} {r' : Rnd}
    (h : generate_device clock id0 emp mgr (some dt) (some m) st r fuel
      = some (d, st', r')) :
    st'.devices = st.devices ++ [d] ∧ st'.employees = st.employees ∧
    d.emp_id = emp ∧ ∃ suf, d.nomenclature = DeviceType.val dt ++ suf := by
  rw [generate_device] at h
  simp only at h
  cases hs : generate_serial_number clock m fuel st.cache with
  | none => rw [hs] at h; exact absurd h (by simp)
  | some pr =>
    obtain ⟨serial, cache'⟩ := pr
    rw [hs] at h
    simp only at h
    injection h with h1
    injection h1 with hd h2
    injection h2 with hst hr
    subst hd
    refine ⟨?_, ?_, rfl, ⟨" " ++ findManuf manufacturer_map m ++ " " ++ m
      ++ " (SN: " ++ serial ++ ")", ?_⟩⟩
    · rw [← hst]
    · rw [← hst]
    · show DeviceType.val dt ++ " " ++ findManuf manufacturer_map m ++ " " ++ m
        ++ " (SN: " ++ serial ++ ")" = _
      simp [String.append_assoc]

theorem mandCount_spec (nd : Nat) (clock : Clock) (dt : DeviceType) (m : String)
    (e : Employee) :
    ∀ (k : Nat) (st : DataGen) (r : Rnd) (c fuel : Nat)
      (st' : DataGen) (r' : Rnd) (c' : Nat),
    mandCount nd clock dt m e k st r c fuel = some (st', r', c') →
    (∃ tail, st'.devices = st.devices ++ tail) ∧ c ≤ c' ∧ c' ≤ c + k ∧
    (1 ≤ k → c < nd → hasCat st'.devices e.empID dt) := by
  intro k
  induction k with
  | zero =>
    intro st r c fuel st' r' c' h
    rw [mandCount] at h
    injection h with h1
    injection h1 with hst h2
    injection h2 with hr hc
    subst hst; subst hc
    exact ⟨⟨[], (List.append_nil _).symm⟩, le_refl _, by omega, fun h1 _ => absurd h1 (by omega)⟩
  | succ k ih =>
    intro st r c fuel st' r' c' h
    rw [mandCount] at h
    by_cases hnd : nd ≤ c
    · rw [if_pos hnd] at h
      injection h with h1
      injection h1 with hst h2
      injection h2 with hr hc
      subst hst; subst hc
      exact ⟨⟨[], (List.append_nil _).symm⟩, le_refl _, by omega,
        fun _ hlt => absurd hnd (by omega)⟩
    · rw [if_neg hnd] at h
      cases hg : generate_device clock (c + 1) e.empID e.is_manager
          (some dt) (some m) st r fuel with
      | none => rw [hg] at h; exact absurd h (by simp)
      | some trip =>
        obtain ⟨d, st1, r1⟩ := trip
        rw [hg] at h
        simp only at h
        obtain ⟨hdev, _, hemp, suf, hnom⟩ := generate_device_spec hg
        obtain ⟨⟨tail, htail⟩, hc1, hc2, _⟩ := ih st1 r1 (c + 1) fuel st' r' c' h
        refine ⟨⟨[d] ++ tail, by rw [htail, hdev, List.append_assoc]⟩, by omega, by omega, ?_⟩
        intro _ _
        have hdmem : d ∈ st'.devices := by
          rw [htail, hdev]
          exact List.mem_append_left _ (List.mem_append_right _ (List.mem_singleton.2 rfl))
        exact ⟨d, hdmem, hemp, suf, hnom⟩

theorem mandTypes_spec (nd : Nat) (clock : Clock) (e : Employee) :
    ∀ (lst : List (DeviceType × Nat × Nat)) (st : DataGen) (r : Rnd)
      (c fuel : Nat) (st' : DataGen) (r' : Rnd) (c' : Nat),
    mandTypes nd clock e lst st r c fuel = some (st', r', c') →
    (∀ t ∈ lst, 1 ≤ t.2.2 ∧ t.2.1 ≤ t.2.2) →
    (∃ tail, st'.devices = st.devices ++ tail) ∧ c ≤ c' ∧
      c' ≤ c + (lst.map (fun t => t.2.2)).sum ∧
    (c + (lst.map (fun t => t.2.2)).sum ≤ nd →
      ∀ t ∈ lst, 1 ≤ t.2.1 → hasCat st'.devices e.empID t.1) := by
  intro lst
  induction lst with
  | nil =>
    intro st r c fuel st' r' c' h _
    rw [mandTypes] at h
    injection h with h1
    injection h1 with hst h2
    injection h2 with hr hc
    subst hst; subst hc
    exact ⟨⟨[], (List.append_nil _).symm⟩, le_refl _, by simp, by simp⟩
  | cons t rest ih =>
    obtain ⟨dt, lo, hi⟩ := t
    intro st r c fuel st' r' c' h hbnd
    have hhd := hbnd (dt, lo, hi) (List.mem_cons_self _ _)
    simp only at hhd
    rw [mandTypes] at h
    by_cases hnd : nd ≤ c
    · rw [if_pos hnd] at h
      injection h with h1
      injection h1 with hst h2
      injection h2 with hr hc
      subst hst; subst hc
      refine ⟨⟨[], (List.append_nil _).symm⟩, le_refl _, by simp, ?_⟩
      intro hbud
      exfalso
      simp only [List.map_cons, List.sum_cons] at hbud
      omega
    · rw [if_neg hnd] at h
      simp only at h
      cases hmc : mandCount nd clock dt
          (rchoice (DEVICE_MODELS dt) "" r).1 e
          (randint lo hi (rchoice (DEVICE_MODELS dt) "" r).2).1 st
          (randint lo hi (rchoice (DEVICE_MODELS dt) "" r).2).2 c fuel with
      | none => rw [hmc] at h; exact absurd h (by simp)
      | some trip =>
        obtain ⟨st1, r1, c1⟩ := trip
        rw [hmc] at h
        simp only at h
        have hcnt := randint_bounds lo hi (rchoice (DEVICE_MODELS dt) "" r).2 hhd.2
        obtain ⟨⟨tl1, htl1⟩, hc1a, hc1b, hcat1⟩ :=
          mandCount_spec nd clock dt _ e _ st _ c fuel st1 r1 c1 hmc
        obtain ⟨⟨tl2, htl2⟩, hc2a, hc2b, hcatrest⟩ :=
          ih st1 r1 c1 fuel st' r' c' h
            (fun t ht => hbnd t (List.mem_cons_of_mem _ ht))
        refine ⟨⟨tl1 ++ tl2, by rw [htl2, htl1, List.append_assoc]⟩, by omega, ?_, ?_⟩
        · simp only [List.map_cons, List.sum_cons]
          omega
        · intro hbud t ht hmin
          simp only [List.map_cons, List.sum_cons] at hbud
          rcases List.mem_cons.1 ht with heq | ht
          · subst heq
            simp only at hmin
            have hc1cat : hasCat st1.devices e.empID dt := hcat1 (by omega) (by omega)
            rw [htl2]
            exact hasCat_ext hc1cat
          · exact hcatrest (by omega) t ht hmin

theorem mandPass_spec (nd : Nat) (clock : Clock) :
    ∀ (emps : List Employee) (st : DataGen) (r : Rnd) (c fuel : Nat)
      (st' : DataGen) (r' : Rnd) (c' : Nat),
    mandPass nd clock emps st r c fuel = some (st', r', c') →
    (∃ tail, st'.devices = st.devices ++ tail) ∧ c ≤ c' ∧
      c' ≤ c + 6 * emps.length ∧
    (c + 6 * emps.length ≤ nd → ∀ e ∈ emps, hasMandatory st'.devices e) := by
  intro emps
  induction emps with
  | nil =>
    intro st r c fuel st' r' c' h
    rw [mandPass] at h
    injection h with h1
    injection h1 with hst h2
    injection h2 with hr hc
    subst hst; subst hc
    exact ⟨⟨[], (List.append_nil _).symm⟩, le_refl _, by simp, by simp⟩
  | cons e rest ih =>
    intro st r c fuel st' r' c' h
    rw [mandPass] at h
    cases hmt : mandTypes nd clock e mandatory_devices st r c fuel with
    | none => rw [hmt] at h; exact absurd h (by simp)
    | some trip =>
      obtain ⟨st1, r1, c1⟩ := trip
      rw [hmt] at h
      simp only at h
      have hbnd : ∀ t ∈ mandatory_devices, 1 ≤ t.2.2 ∧ t.2.1 ≤ t.2.2 := by decide
      have hsum6 : ((mandatory_devices.map (fun t => t.2.2)).sum) = 6 := by decide
      obtain ⟨⟨tl1, htl1⟩, hc1a, hc1b, hcat1⟩ :=
        mandTypes_spec nd clock e mandatory_devices st r c fuel st1 r1 c1 hmt hbnd
      obtain ⟨⟨tl2, htl2⟩, hc2a, hc2b, hmrest⟩ :=
        ih st1 r1 c1 fuel st' r' c' h
      rw [hsum6] at hc1b hcat1
      refine ⟨⟨tl1 ++ tl2, by rw [htl2, htl1, List.append_assoc]⟩, by omega, ?_, ?_⟩
      · simp only [List.length_cons]
        omega
      · intro hbud e0 he0
        simp only [List.length_cons] at hbud
        rcases List.mem_cons.1 he0 with heq | he0
        · subst heq
          have hcats := hcat1 (by omega)
          have hman : hasMandatory st1.devices e0 := by
            refine ⟨?_, ?_, ?_, ?_, ?_⟩ <;>
              [exact hcats (.DESKTOP, 1, 1) (by decide) (by decide);
               exact hcats (.KEYBOARD, 1, 1) (by decide) (by decide);
               exact hcats (.MOUSE, 1, 1) (by decide) (by decide);
               exact hcats (.PHONE, 1, 1) (by decide) (by decide);
               exact hcats (.MONITOR, 1, 2) (by decide) (by decide)]
          rw [htl2]
          exact hasMandatory_ext hman
        · exact hmrest (by omega) e0 he0

theorem extraTypes_ext (nd : Nat) (clock : Clock) (e : Employee) :
    ∀ (lst : List (DeviceType × ℚ)) (st : DataGen) (r : Rnd) (c fuel : Nat)
      (st' : DataGen) (r' : Rnd) (c' : Nat),
    extraTypes nd clock e lst st r c fuel = some (st', r', c') →
    ∃ tail, st'.devices = st.devices ++ tail := by
  intro lst
  induction lst with
  | nil =>
    intro st r c fuel st' r' c' h
    rw [extraTypes] at h
    injection h with h1
    injection h1 with hst h2
    subst hst
    exact ⟨[], (List.append_nil _).symm⟩
  | cons t rest ih =>
    obtain ⟨dt, p⟩ := t
    intro st r c fuel st' r' c' h
    rw [extraTypes] at h
    rcases hrr : rrandom r with ⟨q0, r0⟩
    rw [hrr] at h
    simp only at h
    by_cases hq : q0 < p
    · rw [if_pos hq] at h
      cases hg : generate_device clock (c + 1) e.empID true (some dt)
          (some (rchoice (DEVICE_MODELS dt) "" r0).1) st
          (rchoice (DEVICE_MODELS dt) "" r0).2 fuel with
      | none => rw [hg] at h; exact absurd h (by simp)
      | some trip =>
        obtain ⟨d, st1, r1⟩ := trip
        rw [hg] at h
        simp only at h
        obtain ⟨hdev, _, _, _⟩ := generate_device_spec hg
        by_cases hnd : nd ≤ c + 1
        · rw [if_pos hnd] at h
          injection h with h1
          injection h1 with hst h2
          subst hst
          exact ⟨[d], hdev⟩
        · rw [if_neg hnd] at h
          obtain ⟨tl, htl⟩ := ih st1 r1 (c + 1) fuel st' r' c' h
          exact ⟨[d] ++ tl, by rw [htl, hdev, List.append_assoc]⟩
    · rw [if_neg hq] at h
      exact ih st r0 c fuel st' r' c' h

theorem extraPass_ext (nd : Nat) (clock : Clock) :
    ∀ (emps : List Employee) (st : DataGen) (r : Rnd) (c fuel : Nat)
      (st' : DataGen) (r' : Rnd) (c' : Nat),
    extraPass nd clock emps st r c fuel = some (st', r', c') →
    ∃ tail, st'.devices = st.devices ++ tail := by
  intro emps
  induction emps with
  | nil =>
    intro st r c fuel st' r' c' h
    rw [extraPass] at h
    injection h with h1
    injection h1 with hst h2
    subst hst
    exact ⟨[], (List.append_nil _).symm⟩
  | cons e rest ih =>
    intro st r c fuel st' r' c' h
    rw [extraPass] at h
    by_cases hnd : nd ≤ c
    · rw [if_pos hnd] at h
      injection h with h1
      injection h1 with hst h2
      subst hst
      exact ⟨[], (List.append_nil _).symm⟩
    · rw [if_neg hnd] at h
      cases het : extraTypes nd clock e extra_devices st r c fuel with
      | none => rw [het] at h; exact absurd h (by simp)
      | some trip =>
        obtain ⟨st1, r1, c1⟩ := trip
        rw [het] at h
        simp only at h
        obtain ⟨tl1, htl1⟩ := extraTypes_ext nd clock e extra_devices st r c fuel st1 r1 c1 het
        obtain ⟨tl2, htl2⟩ := ih st1 r1 c1 fuel st' r' c' h
        exact ⟨tl1 ++ tl2, by rw [htl2, htl1, List.append_assoc]⟩

theorem fillPass_ext (nd : Nat) (clock : Clock) (emps : List Employee) :
    ∀ (k : Nat) (st : DataGen) (r : Rnd) (c fuel : Nat)
      (st' : DataGen) (r' : Rnd) (c' : Nat),
    fillPass nd clock emps k st r c fuel = some (st', r', c') →
    ∃ tail, st'.devices = st.devices ++ tail := by
  intro k
  induction k with
  | zero =>
    intro st r c fuel st' r' c' h
    rw [fillPass] at h
    injection h with h1
    injection h1 with hst h2
    subst hst
    exact ⟨[], (List.append_nil _).symm⟩
  | succ k ih =>
    intro st r c fuel st' r' c' h
    rw [fillPass] at h
    by_cases hnd : nd ≤ c
    · rw [if_pos hnd] at h
      injection h with h1
      injection h1 with hst h2
      subst hst
      exact ⟨[], (List.append_nil _).symm⟩
    · rw [if_neg hnd] at h
      simp only at h
      set dt := fillPick device_weights 0
        (runiform 0 ((device_weights.map (·.2)).sum) r).1 with hdt
      cases hg : generate_device clock (c + 1)
          (rchoice emps ⟨"", "", "", "", "", "", false⟩ (runiform 0 ((device_weights.map (·.2)).sum) r).2).1.empID
          (rchoice emps ⟨"", "", "", "", "", "", false⟩ (runiform 0 ((device_weights.map (·.2)).sum) r).2).1.is_manager
          (some dt)
          (some (rchoice (DEVICE_MODELS dt) ""
            (rchoice emps ⟨"", "", "", "", "", "", false⟩ (runiform 0 ((device_weights.map (·.2)).sum) r).2).2).1)
          st
          (rchoice (DEVICE_MODELS dt) ""
            (rchoice emps ⟨"", "", "", "", "", "", false⟩ (runiform 0 ((device_weights.map (·.2)).sum) r).2).2).2
          fuel with
      | none => rw [hg] at h; exact absurd h (by simp)
      | some trip =>
        obtain ⟨d, st1, r1⟩ := trip
        rw [hg] at h
        simp only at h
        obtain ⟨hdev, _, _, _⟩ := generate_device_spec hg
        obtain ⟨tl, htl⟩ := ih st1 r1 (c + 1) fuel st' r' c' h
        exact ⟨[d] ++ tl, by rw [htl, hdev, List.append_assoc]⟩

/-- C4 — In `generate_all_data`'s device stage (the only runnable pipeline:
`generator.py`, also cited by the claim, has a syntax error and cannot
run), the run configuration satisfies the device budget
(6·`NUM_EMPLOYEES` ≤ `NUM_DEVICES`, first conjunct), and whenever the
budget dominates six devices per employee, every employee ends the stage
owning the full mandatory set — desktop, keyboard, mouse, phone and at
least one monitor — among the generated devices whose `emp_id` is that
employee's id; later stages (manager extras, weighted fill) only append
devices. -/
theorem C4_mandatory_devices :
    6 * NUM_EMPLOYEES ≤ NUM_DEVICES ∧
    ∀ (nd : Nat) (clock : Clock) (st : DataGen) (r : Rnd) (fuel : Nat)
      (res : DataGen × Rnd × Nat),
    devicesPass nd clock st r fuel = some res →
    6 * st.employees.length ≤ nd →
    ∀ e ∈ st.employees, hasMandatory res.1.devices e := by
  refine ⟨by norm_num [NUM_EMPLOYEES, NUM_DEVICES], ?_⟩
  intro nd clock st r fuel res h hbud e he
  rw [devicesPass] at h
  cases hmp : mandPass nd clock st.employees st r 0 fuel with
  | none => rw [hmp] at h; exact absurd h (by simp)
  | some trip1 =>
    obtain ⟨st1, r1, c1⟩ := trip1
    rw [hmp] at h
    simp only at h
    cases hep : extraPass nd clock (st1.employees.filter (·.is_manager)) st1 r1 c1 fuel with
    | none => rw [hep] at h; exact absurd h (by simp)
    | some trip2 =>
      obtain ⟨st2, r2, c2⟩ := trip2
      rw [hep] at h
      simp only at h
      obtain ⟨_, _, _, hman⟩ := mandPass_spec nd clock st.employees st r 0 fuel st1 r1 c1 hmp
      have hm1 : hasMandatory st1.devices e := hman (by omega) e he
      obtain ⟨tl2, htl2⟩ :=
        extraPass_ext nd clock (st1.employees.filter (·.is_manager)) st1 r1 c1 fuel st2 r2 c2 hep
      obtain ⟨st3, r3, c3⟩ := res
      obtain ⟨tl3, htl3⟩ :=
        fillPass_ext nd clock st2.employees (nd - c2) st2 r2 c2 fuel st3 r3 c3 h
      show hasMandatory st3.devices e
      rw [htl3, htl2]
      rw [List.append_assoc]
      exact hasMandatory_ext hm1

/-- C4 witness: a two-employee run against a budget of 12 devices. -/
theorem C4_mandatory_devices_witness :
    6 * NUM_EMPLOYEES ≤ NUM_DEVICES ∧
    hasMandatory
      ((devicesPass 12 ⟨2025, 10, 20000⟩
          ⟨[⟨"1", "f1", "00000001", "Специалист", "", "Москва", false⟩,
            ⟨"2", "f2", "00000002", "Специалист", "", "Москва", false⟩], [], [], ∅⟩
          ⟨fun _ => 0, fun _ => 0, 0⟩ 1).getD
        (⟨[], [], [], ∅⟩, ⟨fun _ => 0, fun _ => 0, 0⟩, 0)).1.devices
      ⟨"1", "f1", "00000001", "Специалист", "", "Москва", false⟩ :=
  ⟨C4_mandatory_devices.1,
   C4_mandatory_devices.2 12 ⟨2025, 10, 20000⟩
     ⟨[⟨"1", "f1", "00000001", "Специалист", "", "Москва", false⟩,
       ⟨"2", "f2", "00000002", "Специалист", "", "Москва", false⟩], [], [], ∅⟩
     ⟨fun _ => 0, fun _ => 0, 0⟩ 1
     ((devicesPass 12 ⟨2025, 10, 20000⟩
          ⟨[⟨"1", "f1", "00000001", "Специалист", "", "Москва", false⟩,
            ⟨"2", "f2", "00000002", "Специалист", "", "Москва", false⟩], [], [], ∅⟩
          ⟨fun _ => 0, fun _ => 0, 0⟩ 1).getD
        (⟨[], [], [], ∅⟩, ⟨fun _ => 0, fun _ => 0, 0⟩, 0))
     (by with_unfolding_all rfl) (by decide)
     ⟨"1", "f1", "00000001", "Специалист", "", "Москва", false⟩ (by decide)⟩

/-! ### Uploader lemmas: the batch buffer refines direct writes -/

/-- The store as it will look once the pending batch is flushed. -/
def virt (u : U) : Colls := u.batch.foldl applyBOp u.colls

/-- The counter invariant of `FirebaseUploader`:
`operation_count` counts the pending batch entries. -/
def WfB (u : U) : Prop := u.operation_count = u.batch.length

theorem lookup_convDoc (rec : Doc) (k : String) :
    (convDoc rec).lookup k = (rec.lookup k).map convVal := by
  induction rec with
  | nil => rfl
  | cons p rest ih =>
    obtain ⟨k0, v⟩ := p
    by_cases hk : k = k0
    · subst hk
      simp [convDoc, List.lookup]
    · have hbeq : (k == k0) = false := beq_false_of_ne hk
      simp only [convDoc, List.map_cons, List.lookup, hbeq] at ih ⊢
      exact ih

theorem commit_batch_virt {o : Nat → Bool} {u u' : U}
    (h : commit_batch o u = .ok u') (hw : WfB u) :
    virt u' = virt u ∧ WfB u' ∧ u'.batch = [] := by
  rw [commit_batch] at h
  by_cases hop : 0 < u.operation_count
  · rw [if_pos hop] at h
    by_cases ho : o u.cIdx = true
    · rw [if_pos ho] at h
      injection h with h1
      subst h1
      refine ⟨?_, rfl, rfl⟩
      simp [virt, WfB]
    · rw [if_neg (by simpa using ho)] at h
      exact absurd h (by simp)
  · rw [if_neg hop] at h
    injection h with h1
    subst h1
    have : u.batch = [] := by
      rw [WfB] at hw
      exact List.eq_nil_of_length_eq_zero (by omega)
    exact ⟨rfl, hw, this⟩

theorem add_to_batch_virt {o : Nat → Bool} {coll id : String} {d : Doc} {u u' : U}
    (h : add_to_batch o coll id d u = .ok u') (hw : WfB u) :
    virt u' = applyBOp (virt u) (coll, id, d) ∧ WfB u' := by
  rw [add_to_batch] at h
  simp only at h
  set u1 : U := { u with batch := u.batch ++ [(coll, id, d)],
                         operation_count := u.operation_count + 1,
                         total_operations := u.total_operations + 1 } with hu1
  have hv1 : virt u1 = applyBOp (virt u) (coll, id, d) := by
    simp [virt, hu1, List.foldl_append]
  have hw1 : WfB u1 := by
    simp [WfB, hu1]
    rw [WfB] at hw
    omega
  by_cases hc : BATCH_SIZE ≤ u.operation_count + 1
  · rw [if_pos hc] at h
    obtain ⟨hv, hwf, _⟩ := commit_batch_virt h hw1
    exact ⟨by rw [hv, hv1], hwf⟩
  · rw [if_neg hc] at h
    injection h with h1
    subst h1
    exact ⟨hv1, hw1⟩

/-- The per-record write step of `uploadRecords`, applied directly to a
store: skip empty natural ids, convert and upsert the rest. -/
def recStep (coll key : String) (c : Colls) (rec : Doc) : Colls :=
  if pyStr ((rec.lookup key).getD (.pstr "")) ≠ "" then
    applyBOp c (coll, pyStr ((rec.lookup key).getD (.pstr "")), convDoc rec)
  else c

theorem uploadRecords_virt {o : Nat → Bool} {coll key : String} :
    ∀ {recs : List Doc} {u u' : U},
    uploadRecords o coll key recs u = .ok u' → WfB u →
    virt u' = recs.foldl (recStep coll key) (virt u) ∧ WfB u' := by
  intro recs
  induction recs with
  | nil =>
    intro u u' h hw
    rw [uploadRecords] at h
    injection h with h1
    subst h1
    exact ⟨rfl, hw⟩
  | cons rec rest ih =>
    intro u u' h hw
    rw [uploadRecords] at h
    have hmg : (match rec.lookup key with | some v => v | none => PyVal.pstr "")
        = (rec.lookup key).getD (.pstr "") := by
      cases rec.lookup key <;> rfl
    rw [hmg] at h
    by_cases hid : pyStr ((rec.lookup key).getD (.pstr "")) ≠ ""
    · rw [if_pos hid] at h
      cases hab : add_to_batch o coll
          (pyStr ((rec.lookup key).getD (.pstr ""))) (convDoc rec) u with
      | error e => rw [hab] at h; exact absurd h (by simp)
      | ok u1 =>
        rw [hab] at h
        simp only at h
        obtain ⟨hv1, hw1⟩ := add_to_batch_virt hab hw
        obtain ⟨hv2, hw2⟩ := ih h hw1
        refine ⟨?_, hw2⟩
        rw [hv2, List.foldl_cons]
        congr 1
        rw [hv1]
        rw [recStep, if_pos hid]
    · rw [if_neg hid] at h
      obtain ⟨hv2, hw2⟩ := ih h hw
      refine ⟨?_, hw2⟩
      rw [hv2, List.foldl_cons]
      congr 1
      rw [recStep, if_neg hid]

/-- C10 — During upload, scalar record fields are stringified (`str(v)`
for anything that is not a dict, list or bool — in particular the integer
fields `usefulLife` and `ctc` become decimal strings, while bools, lists
and dicts pass through unchanged), and the record loop writes exactly the
records whose natural id stringifies to a non-empty string: an
empty-natural-id record is silently skipped, contributing no write, and
this net effect holds through the 400-operation batch buffering. -/
theorem C10_stringify_and_skip :
    (∀ (rec : Doc) (k : String) (n : Int), rec.lookup k = some (.pint n) →
      (convDoc rec).lookup k = some (.pstr (intRepr n))) ∧
    (∀ (rec : Doc) (k : String) (b : Bool), rec.lookup k = some (.pbool b) →
      (convDoc rec).lookup k = some (.pbool b)) ∧
    (∀ (rec : Doc) (k : String) (l : List PyVal), rec.lookup k = some (.plist l) →
      (convDoc rec).lookup k = some (.plist l)) ∧
    (∀ (o : Nat → Bool) (coll key : String) (recs : List Doc) (u u' : U),
      uploadRecords o coll key recs u = .ok u' → WfB u →
      virt u' = recs.foldl (recStep coll key) (virt u)) ∧
    (∀ (coll key : String) (c : Colls) (rec : Doc),
      pyStr ((rec.lookup key).getD (.pstr "")) = "" → recStep coll key c rec = c) := by
  refine ⟨?_, ?_, ?_, ?_, ?_⟩
  · intro rec k n h
    rw [lookup_convDoc, h]
    rfl
  · intro rec k b h
    rw [lookup_convDoc, h]
    cases b <;> rfl
  · intro rec k l h
    rw [lookup_convDoc, h]
    rfl
  · intro o coll key recs u u' h hw
    exact (uploadRecords_virt h hw).1
  · intro coll key c rec h
    rw [recStep, if_neg (by simpa using h)]

/-- C10 witness: a device-like record with integer `usefulLife`/`ctc`
fields and an empty-id record that is skipped. -/
theorem C10_stringify_and_skip_witness :
    (convDoc [("ID", .pstr "7"), ("usefulLife", .pint 5), ("ctc", .pint 83)]).lookup
      "usefulLife" = some (.pstr (intRepr 5)) ∧
    (convDoc [("ID", .pstr "7"), ("usefulLife", .pint 5), ("ctc", .pint 83)]).lookup
      "ctc" = some (.pstr (intRepr 83)) ∧
    virt ((uploadRecords (fun _ => true) "devices" "ID"
        [[("ID", .pstr ""), ("usefulLife", .pint 5)]]
        ⟨⟨[], [], []⟩, [], 0, 0, 0⟩).toOption.getD ⟨⟨[], [], []⟩, [], 0, 0, 0⟩)
      = ([[("ID", .pstr ""), ("usefulLife", .pint 5)]] : List Doc).foldl
          (recStep "devices" "ID") (virt ⟨⟨[], [], []⟩, [], 0, 0, 0⟩) ∧
    recStep "devices" "ID" (virt ⟨⟨[], [], []⟩, [], 0, 0, 0⟩)
      [("ID", .pstr ""), ("usefulLife", .pint 5)]
      = virt ⟨⟨[], [], []⟩, [], 0, 0, 0⟩ :=
  ⟨C10_stringify_and_skip.1 [("ID", .pstr "7"), ("usefulLife", .pint 5), ("ctc", .pint 83)]
      "usefulLife" 5 (by with_unfolding_all rfl),
   C10_stringify_and_skip.1 [("ID", .pstr "7"), ("usefulLife", .pint 5), ("ctc", .pint 83)]
      "ctc" 83 (by with_unfolding_all rfl),
   C10_stringify_and_skip.2.2.2.1 (fun _ => true) "devices" "ID"
      [[("ID", .pstr ""), ("usefulLife", .pint 5)]]
      ⟨⟨[], [], []⟩, [], 0, 0, 0⟩
      ((uploadRecords (fun _ => true) "devices" "ID"
        [[("ID", .pstr ""), ("usefulLife", .pint 5)]]
        ⟨⟨[], [], []⟩, [], 0, 0, 0⟩).toOption.getD ⟨⟨[], [], []⟩, [], 0, 0, 0⟩)
      (by with_unfolding_all rfl) rfl,
   C10_stringify_and_skip.2.2.2.2 "devices" "ID" (virt ⟨⟨[], [], []⟩, [], 0, 0, 0⟩)
      [("ID", .pstr ""), ("usefulLife", .pint 5)] (by with_unfolding_all rfl)⟩

/-! ### C6: failures abort the synchronization and propagate -/

/-- A successful stretch of the run: from commit index `i` to `j`, every
attempted commit succeeded. -/
def SpanO (o : Nat → Bool) (i j : Nat) : Prop :=
  i ≤ j ∧ ∀ k, i ≤ k → k < j → o k = true

/-- A failing outcome seen from commit index `i`: the surfaced error is the
first failing commit — everything attempted before it succeeded, and
nothing was attempted after it (the state at the raise sits right past the
failing commit). -/
def SpanE (o : Nat → Bool) (i : Nat) : UFail → Prop
  | .commitFail k ue =>
    o k = false ∧ i ≤ k ∧ (∀ j, i ≤ j → j < k → o j = true) ∧ ue.cIdx = k + 1
  | .outOfFuel _ => True

theorem SpanO_refl (o : Nat → Bool) (i : Nat) : SpanO o i i :=
  ⟨le_refl _, fun _ h1 h2 => absurd h2 (by omega)⟩

theorem SpanO_trans {o : Nat → Bool} {i j l : Nat}
    (h1 : SpanO o i j) (h2 : SpanO o j l) : SpanO o i l := by
  refine ⟨le_trans h1.1 h2.1, fun k hk hl => ?_⟩
  by_cases hkj : k < j
  · exact h1.2 k hk hkj
  · exact h2.2 k (by omega) hl

theorem SpanE_comp {o : Nat → Bool} {i j : Nat} {e : UFail}
    (h1 : SpanO o i j) (h2 : SpanE o j e) : SpanE o i e := by
  cases e with
  | outOfFuel u => trivial
  | commitFail k ue =>
    obtain ⟨hf, hjk, hsp, hidx⟩ := h2
    refine ⟨hf, le_trans h1.1 hjk, fun l hl hlk => ?_, hidx⟩
    by_cases hlj : l < j
    · exact h1.2 l hl hlj
    · exact hsp l (by omega) hlk

theorem commitDelBatch_span {o : Nat → Bool} {name : String} {ids : List String}
    {u : U} :
    (∀ u', commitDelBatch o name ids u = .ok u' → SpanO o u.cIdx u'.cIdx) ∧
    (∀ e, commitDelBatch o name ids u = .error e → SpanE o u.cIdx e) := by
  constructor
  · intro u' h
    rw [commitDelBatch] at h
    by_cases ho : o u.cIdx = true
    · rw [if_pos ho] at h
      injection h with h1
      subst h1
      show SpanO o u.cIdx (u.cIdx + 1)
      refine ⟨by omega, fun k hk hl => ?_⟩
      have hke : k = u.cIdx := by omega
      rw [hke]; exact ho
    · rw [if_neg ho] at h
      exact absurd h (by simp)
  · intro e h
    rw [commitDelBatch] at h
    by_cases ho : o u.cIdx = true
    · rw [if_pos ho] at h
      exact absurd h (by simp)
    · rw [if_neg ho] at h
      injection h with h1
      rw [← h1]
      exact ⟨by simpa using ho, le_refl _, fun j h1 h2 => absurd h2 (by omega), rfl⟩

theorem processPage_span (o : Nat → Bool) (name : String) :
    ∀ (docs batch : List String) (deleted : Nat) (u : U),
    (∀ u' b' d' cnt, processPage o name docs batch deleted u = .ok (u', b', d', cnt) →
      SpanO o u.cIdx u'.cIdx) ∧
    (∀ e, processPage o name docs batch deleted u = .error e → SpanE o u.cIdx e) := by
  intro docs
  induction docs with
  | nil =>
    intro batch deleted u
    constructor
    · intro u' b' d' cnt h
      rw [processPage] at h
      injection h with h1
      injection h1 with h2 h3
      rw [← h2]
      exact SpanO_refl o u.cIdx
    · intro e h
      rw [processPage] at h
      exact absurd h (by simp)
  | cons d ds ih =>
    intro batch deleted u
    constructor
    · intro u' b' d' cnt h
      rw [processPage] at h
      by_cases hmod : (deleted + 1) % BATCH_SIZE = 0
      · rw [if_pos hmod] at h
        cases hc : commitDelBatch o name (batch ++ [d]) u with
        | error e => rw [hc] at h; exact absurd h (by simp)
        | ok u1 =>
          rw [hc] at h
          simp only at h
          injection h with h1
          injection h1 with h2 h3
          rw [← h2]
          exact commitDelBatch_span.1 u1 hc
      · rw [if_neg hmod] at h
        cases hp : processPage o name ds (batch ++ [d]) (deleted + 1) u with
        | error e => rw [hp] at h; exact absurd h (by simp)
        | ok quad =>
          obtain ⟨u1, b1, d1, c1⟩ := quad
          rw [hp] at h
          simp only at h
          injection h with h1
          injection h1 with h2 h3
          rw [← h2]
          exact (ih (batch ++ [d]) (deleted + 1) u).1 u1 b1 d1 c1 hp
    · intro e h
      rw [processPage] at h
      by_cases hmod : (deleted + 1) % BATCH_SIZE = 0
      · rw [if_pos hmod] at h
        cases hc : commitDelBatch o name (batch ++ [d]) u with
        | error e1 =>
          rw [hc] at h
          injection h with h1
          rw [← h1]
          exact commitDelBatch_span.2 e1 hc
        | ok u1 => rw [hc] at h; exact absurd h (by simp)
      · rw [if_neg hmod] at h
        cases hp : processPage o name ds (batch ++ [d]) (deleted + 1) u with
        | error e1 =>
          rw [hp] at h
          injection h with h1
          rw [← h1]
          exact (ih (batch ++ [d]) (deleted + 1) u).2 e1 hp
        | ok quad =>
          obtain ⟨u1, b1, d1, c1⟩ := quad
          rw [hp] at h
          exact absurd h (by simp)

theorem deleteLoop_span (o : Nat → Bool) (name : String) :
    ∀ (fuel : Nat) (docs batch : List String) (deleted total : Nat) (u : U),
    (∀ u' b' d' t', deleteLoop o name fuel docs batch deleted total u
        = .ok (u', b', d', t') → SpanO o u.cIdx u'.cIdx) ∧
    (∀ e, deleteLoop o name fuel docs batch deleted total u = .error e →
      SpanE o u.cIdx e) := by
  intro fuel
  induction fuel with
  | zero =>
    intro docs batch deleted total u
    exact ⟨fun u' b' d' t' h => absurd h (by simp [deleteLoop]),
      fun e h => by
        rw [deleteLoop] at h
        injection h with h1
        rw [← h1]
        trivial⟩
  | succ fuel ih =>
    intro docs batch deleted total u
    constructor
    · intro u' b' d' t' h
      rw [deleteLoop] at h
      cases hp : processPage o name docs batch deleted u with
      | error e => rw [hp] at h; exact absurd h (by simp)
      | ok quad =>
        obtain ⟨u1, b1, d1, c1⟩ := quad
        rw [hp] at h
        simp only at h
        have hsp1 := (processPage_span o name docs batch deleted u).1 u1 b1 d1 c1 hp
        by_cases hcnt : c1 < BATCH_SIZE
        · rw [if_pos hcnt] at h
          injection h with h1
          injection h1 with h2 h3
          rw [← h2]
          exact hsp1
        · rw [if_neg hcnt] at h
          cases hh : ((getColl u1.colls name).take BATCH_SIZE).head? with
          | none =>
            rw [hh] at h
            injection h with h1
            injection h1 with h2 h3
            rw [← h2]
            exact hsp1
          | some last =>
            rw [hh] at h
            simp only at h
            exact SpanO_trans hsp1
              ((ih _ b1 d1 (total + c1) u1).1 u' b' d' t' h)
    · intro e h
      rw [deleteLoop] at h
      cases hp : processPage o name docs batch deleted u with
      | error e1 =>
        rw [hp] at h
        injection h with h1
        rw [← h1]
        exact (processPage_span o name docs batch deleted u).2 e1 hp
      | ok quad =>
        obtain ⟨u1, b1, d1, c1⟩ := quad
        rw [hp] at h
        simp only at h
        have hsp1 := (processPage_span o name docs batch deleted u).1 u1 b1 d1 c1 hp
        by_cases hcnt : c1 < BATCH_SIZE
        · rw [if_pos hcnt] at h
          exact absurd h (by simp)
        · rw [if_neg hcnt] at h
          cases hh : ((getColl u1.colls name).take BATCH_SIZE).head? with
          | none => rw [hh] at h; exact absurd h (by simp)
          | some last =>
            rw [hh] at h
            simp only at h
            exact SpanE_comp hsp1 ((ih _ b1 d1 (total + c1) u1).2 e h)

theorem delete_collection_span (o : Nat → Bool) (name : String) (fuel : Nat)
    (u : U) :
    (∀ u' t', delete_collection o name fuel u = .ok (u', t') →
      SpanO o u.cIdx u'.cIdx) ∧
    (∀ e, delete_collection o name fuel u = .error e → SpanE o u.cIdx e) := by
  constructor
  · intro u' t' h
    rw [delete_collection] at h
    cases hl : deleteLoop o name fuel (((getColl u.colls name).take BATCH_SIZE).map (·.1))
        [] 0 0 u with
    | error e => rw [hl] at h; exact absurd h (by simp)
    | ok quad =>
      obtain ⟨u1, b1, d1, t1⟩ := quad
      rw [hl] at h
      simp only at h
      have hsp1 := (deleteLoop_span o name fuel _ [] 0 0 u).1 u1 b1 d1 t1 hl
      by_cases hmod : d1 % BATCH_SIZE ≠ 0
      · rw [if_pos hmod] at h
        cases hc : commitDelBatch o name b1 u1 with
        | error e => rw [hc] at h; exact absurd h (by simp)
        | ok u2 =>
          rw [hc] at h
          simp only at h
          injection h with h1
          injection h1 with h2 h3
          rw [← h2]
          exact SpanO_trans hsp1 (commitDelBatch_span.1 u2 hc)
      · rw [if_neg hmod] at h
        injection h with h1
        injection h1 with h2 h3
        rw [← h2]
        exact hsp1
  · intro e h
    rw [delete_collection] at h
    cases hl : deleteLoop o name fuel (((getColl u.colls name).take BATCH_SIZE).map (·.1))
        [] 0 0 u with
    | error e1 =>
      rw [hl] at h
      injection h with h1
      rw [← h1]
      exact (deleteLoop_span o name fuel _ [] 0 0 u).2 e1 hl
    | ok quad =>
      obtain ⟨u1, b1, d1, t1⟩ := quad
      rw [hl] at h
      simp only at h
      have hsp1 := (deleteLoop_span o name fuel _ [] 0 0 u).1 u1 b1 d1 t1 hl
      by_cases hmod : d1 % BATCH_SIZE ≠ 0
      · rw [if_pos hmod] at h
        cases hc : commitDelBatch o name b1 u1 with
        | error e1 =>
          rw [hc] at h
          injection h with h1
          rw [← h1]
          exact SpanE_comp hsp1 (commitDelBatch_span.2 e1 hc)
        | ok u2 => rw [hc] at h; exact absurd h (by simp)
      · rw [if_neg hmod] at h
        exact absurd h (by simp)

theorem deletePhase_span (o : Nat → Bool) (fuel : Nat) :
    ∀ (names : List String) (u : U),
    (∀ u', deletePhase o fuel names u = .ok u' → SpanO o u.cIdx u'.cIdx) ∧
    (∀ e, deletePhase o fuel names u = .error e → SpanE o u.cIdx e) := by
  intro names
  induction names with
  | nil =>
    intro u
    exact ⟨fun u' h => by
        rw [deletePhase] at h
        injection h with h1
        rw [← h1]
        exact SpanO_refl o u.cIdx,
      fun e h => absurd h (by simp [deletePhase])⟩
  | cons name rest ih =>
    intro u
    constructor
    · intro u' h
      rw [deletePhase] at h
      cases hd : delete_collection o name fuel u with
      | error e => rw [hd] at h; exact absurd h (by simp)
      | ok pr =>
        obtain ⟨u1, t1⟩ := pr
        rw [hd] at h
        simp only at h
        exact SpanO_trans ((delete_collection_span o name fuel u).1 u1 t1 hd)
          ((ih u1).1 u' h)
    · intro e h
      rw [deletePhase] at h
      cases hd : delete_collection o name fuel u with
      | error e1 =>
        rw [hd] at h
        injection h with h1
        rw [← h1]
        exact (delete_collection_span o name fuel u).2 e1 hd
      | ok pr =>
        obtain ⟨u1, t1⟩ := pr
        rw [hd] at h
        simp only at h
        exact SpanE_comp ((delete_collection_span o name fuel u).1 u1 t1 hd)
          ((ih u1).2 e h)

theorem commit_batch_span {o : Nat → Bool} {u : U} :
    (∀ u', commit_batch o u = .ok u' → SpanO o u.cIdx u'.cIdx) ∧
    (∀ e, commit_batch o u = .error e → SpanE o u.cIdx e) := by
  constructor
  · intro u' h
    rw [commit_batch] at h
    by_cases hop : 0 < u.operation_count
    · rw [if_pos hop] at h
      by_cases ho : o u.cIdx = true
      · rw [if_pos ho] at h
        injection h with h1
        subst h1
        show SpanO o u.cIdx (u.cIdx + 1)
        refine ⟨by omega, fun k hk hl => ?_⟩
        have hke : k = u.cIdx := by omega
        rw [hke]; exact ho
      · rw [if_neg ho] at h
        exact absurd h (by simp)
    · rw [if_neg hop] at h
      injection h with h1
      rw [← h1]
      exact SpanO_refl o u.cIdx
  · intro e h
    rw [commit_batch] at h
    by_cases hop : 0 < u.operation_count
    · rw [if_pos hop] at h
      by_cases ho : o u.cIdx = true
      · rw [if_pos ho] at h
        exact absurd h (by simp)
      · rw [if_neg ho] at h
        injection h with h1
        rw [← h1]
        exact ⟨by simpa using ho, le_refl _, fun j h1 h2 => absurd h2 (by omega), rfl⟩
    · rw [if_neg hop] at h
      exact absurd h (by simp)

theorem add_to_batch_span {o : Nat → Bool} {coll id : String} {d : Doc} {u : U} :
    (∀ u', add_to_batch o coll id d u = .ok u' → SpanO o u.cIdx u'.cIdx) ∧
    (∀ e, add_to_batch o coll id d u = .error e → SpanE o u.cIdx e) := by
  constructor
  · intro u' h
    rw [add_to_batch] at h
    simp only at h
    by_cases hc : BATCH_SIZE ≤ u.operation_count + 1
    · rw [if_pos hc] at h
      have hs := commit_batch_span.1 u' h
      exact hs
    · rw [if_neg hc] at h
      injection h with h1
      rw [← h1]
      exact SpanO_refl o u.cIdx
  · intro e h
    rw [add_to_batch] at h
    simp only at h
    by_cases hc : BATCH_SIZE ≤ u.operation_count + 1
    · rw [if_pos hc] at h
      have hs := commit_batch_span.2 e h
      exact hs
    · rw [if_neg hc] at h
      exact absurd h (by simp)

theorem uploadRecords_span (o : Nat → Bool) (coll key : String) :
    ∀ (recs : List Doc) (u : U),
    (∀ u', uploadRecords o coll key recs u = .ok u' → SpanO o u.cIdx u'.cIdx) ∧
    (∀ e, uploadRecords o coll key recs u = .error e → SpanE o u.cIdx e) := by
  intro recs
  induction recs with
  | nil =>
    intro u
    exact ⟨fun u' h => by
        rw [uploadRecords] at h
        injection h with h1
        rw [← h1]
        exact SpanO_refl o u.cIdx,
      fun e h => absurd h (by simp [uploadRecords])⟩
  | cons rec rest ih =>
    intro u
    constructor
    · intro u' h
      rw [uploadRecords] at h
      by_cases hid : pyStr (match rec.lookup key with
          | some v => v | none => .pstr "") ≠ ""
      · rw [if_pos hid] at h
        cases hab : add_to_batch o coll
            (pyStr (match rec.lookup key with | some v => v | none => .pstr ""))
            (convDoc rec) u with
        | error e => rw [hab] at h; exact absurd h (by simp)
        | ok u1 =>
          rw [hab] at h
          simp only at h
          exact SpanO_trans (add_to_batch_span.1 u1 hab) ((ih u1).1 u' h)
      · rw [if_neg hid] at h
        exact (ih u).1 u' h
    · intro e h
      rw [uploadRecords] at h
      by_cases hid : pyStr (match rec.lookup key with
          | some v => v | none => .pstr "") ≠ ""
      · rw [if_pos hid] at h
        cases hab : add_to_batch o coll
            (pyStr (match rec.lookup key with | some v => v | none => .pstr ""))
            (convDoc rec) u with
        | error e1 =>
          rw [hab] at h
          injection h with h1
          rw [← h1]
          exact add_to_batch_span.2 e1 hab
        | ok u1 =>
          rw [hab] at h
          simp only at h
          exact SpanE_comp (add_to_batch_span.1 u1 hab) ((ih u1).2 e h)
      · rw [if_neg hid] at h
        exact (ih u).2 e h

/-- Outcome-indexed span: a successful result consumed only successful
commits; a failing one surfaces the first failing commit. -/
def SpanR (o : Nat → Bool) (i : Nat) : URes U → Prop
  | .ok u' => SpanO o i u'.cIdx
  | .error e => SpanE o i e

theorem refPhase_span (o : Nat → Bool) (ord : Option RefData) (u1 : U) :
    ∀ res, (match ord with
      | none => (.ok u1 : URes U)
      | some rd =>
        match add_to_batch o "referenceData" "cities" [("cities", .plist rd.cities)] u1 with
        | .error e => .error e
        | .ok ua =>
          match add_to_batch o "referenceData" "divisions" [("divisions", .plist rd.divisions)] ua with
          | .error e => .error e
          | .ok ub =>
            add_to_batch o "referenceData" "positions" [("positions", .plist rd.positions)] ub) = res →
    SpanR o u1.cIdx res := by
  intro res h
  cases ord with
  | none => rw [← h]; exact SpanO_refl o u1.cIdx
  | some rd =>
    simp only at h
    cases ha : add_to_batch o "referenceData" "cities" [("cities", .plist rd.cities)] u1 with
    | error e => rw [ha] at h; rw [← h]; exact add_to_batch_span.2 e ha
    | ok ua =>
      rw [ha] at h
      simp only at h
      have hsa := add_to_batch_span.1 ua ha
      cases hb : add_to_batch o "referenceData" "divisions"
          [("divisions", .plist rd.divisions)] ua with
      | error e =>
        rw [hb] at h; rw [← h]
        exact SpanE_comp hsa (add_to_batch_span.2 e hb)
      | ok ub =>
        rw [hb] at h
        simp only at h
        have hsb := add_to_batch_span.1 ub hb
        cases hc : add_to_batch o "referenceData" "positions"
            [("positions", .plist rd.positions)] ub with
        | error e =>
          rw [hc] at h; rw [← h]
          exact SpanE_comp (SpanO_trans hsa hsb) (add_to_batch_span.2 e hc)
        | ok uc =>
          rw [hc] at h; rw [← h]
          exact SpanO_trans (SpanO_trans hsa hsb) (add_to_batch_span.1 uc hc)

theorem recPhase_span (o : Nat → Bool) (coll key : String)
    (odata : Option (List Doc)) (u : U) :
    ∀ res, (match odata with
      | none => (.ok u : URes U)
      | some recs =>
        if recs.isEmpty then .ok u
        else
          match uploadRecords o coll key recs u with
          | .error e => .error e
          | .ok u' => commit_batch o u') = res →
    SpanR o u.cIdx res := by
  intro res h
  cases odata with
  | none => rw [← h]; exact SpanO_refl o u.cIdx
  | some recs =>
    simp only at h
    by_cases hemp : recs.isEmpty
    · rw [if_pos hemp] at h
      rw [← h]
      exact SpanO_refl o u.cIdx
    · rw [if_neg hemp] at h
      cases hur : uploadRecords o coll key recs u with
      | error e =>
        rw [hur] at h; rw [← h]
        exact (uploadRecords_span o coll key recs u).2 e hur
      | ok u1 =>
        rw [hur] at h
        simp only at h
        have hs1 := (uploadRecords_span o coll key recs u).1 u1 hur
        cases hcb : commit_batch o u1 with
        | error e =>
          rw [hcb] at h; rw [← h]
          exact SpanE_comp hs1 (commit_batch_span.2 e hcb)
        | ok u2 =>
          rw [hcb] at h; rw [← h]
          exact SpanO_trans hs1 (commit_batch_span.1 u2 hcb)

/-- C6 — Store synchronization is fail-fast: a run of `upload_data`
succeeds only if every `batch.commit()` it attempted (delete pages, the
trailing delete commit, auto-flushed and final write batches) succeeded;
and when a commit raises, the run aborts there — the surfaced error is the
first failing commit, every earlier commit succeeded, and the state at the
raise has attempted nothing past it.  No partial-batch recovery path
exists: the error reaches the caller of `upload_data` unchanged. -/
theorem C6_failures_propagate (o : Nat → Bool) (data : UploadData) (fuel : Nat)
    (u : U) :
    (∀ u', upload_data o data fuel u = .ok u' →
      u.cIdx ≤ u'.cIdx ∧ ∀ k, u.cIdx ≤ k → k < u'.cIdx → o k = true) ∧
    (∀ k ue, upload_data o data fuel u = .error (.commitFail k ue) →
      o k = false ∧ u.cIdx ≤ k ∧ (∀ j, u.cIdx ≤ j → j < k → o j = true) ∧
      ue.cIdx = k + 1) := by
  have main : ∀ res, upload_data o data fuel u = res → SpanR o u.cIdx res := by
    intro res h
    rw [upload_data] at h
    cases hd : deletePhase o fuel ["employees", "devices", "referenceData"] u with
    | error e =>
      rw [hd] at h; rw [← h]
      exact (deletePhase_span o fuel _ u).2 e hd
    | ok u1 =>
      rw [hd] at h
      simp only at h
      have hs1 := (deletePhase_span o fuel _ u).1 u1 hd
      cases h2 : (match data.reference_data with
        | none => (.ok u1 : URes U)
        | some rd =>
          match add_to_batch o "referenceData" "cities" [("cities", .plist rd.cities)] u1 with
          | .error e => .error e
          | .ok ua =>
            match add_to_batch o "referenceData" "divisions" [("divisions", .plist rd.divisions)] ua with
            | .error e => .error e
            | .ok ub =>
              add_to_batch o "referenceData" "positions" [("positions", .plist rd.positions)] ub) with
      | error e =>
        rw [h2] at h; rw [← h]
        exact SpanE_comp hs1 (show SpanE o u1.cIdx e from refPhase_span o _ u1 _ h2)
      | ok u2 =>
        rw [h2] at h
        simp only at h
        have hs2 : SpanO o u1.cIdx u2.cIdx := refPhase_span o _ u1 _ h2
        cases h3 : (match data.employees with
          | none => (.ok u2 : URes U)
          | some emps =>
            if emps.isEmpty then .ok u2
            else
              match uploadRecords o "employees" "empID" emps u2 with
              | .error e => .error e
              | .ok u' => commit_batch o u') with
        | error e =>
          rw [h3] at h; rw [← h]
          exact SpanE_comp (SpanO_trans hs1 hs2)
            (show SpanE o u2.cIdx e from recPhase_span o "employees" "empID" _ u2 _ h3)
        | ok u3 =>
          rw [h3] at h
          simp only at h
          have hs3 : SpanO o u2.cIdx u3.cIdx :=
            recPhase_span o "employees" "empID" _ u2 _ h3
          have hs4 : SpanR o u3.cIdx res :=
            recPhase_span o "devices" "ID" data.devices u3 res h
          cases res with
          | ok u4 => exact SpanO_trans (SpanO_trans (SpanO_trans hs1 hs2) hs3) hs4
          | error e => exact SpanE_comp (SpanO_trans (SpanO_trans hs1 hs2) hs3) hs4
  constructor
  · intro u' h
    exact main (.ok u') h
  · intro k ue h
    exact main (.error (.commitFail k ue)) h

/-- C6 witness: a one-employee/one-device dataset against an all-failing
oracle (the first commit fails and surfaces) and an all-succeeding one. -/
theorem C6_failures_propagate_witness :
    ((fun _ : Nat => false) 0 = false ∧
      (⟨⟨[], [], []⟩, [("employees", "1", [("empID", PyVal.pstr "1")])],
        1, 1, 1⟩ : U).cIdx = 0 + 1) ∧
    (0 : Nat) ≤ ((upload_data (fun _ => true)
      ⟨none, some [[("empID", PyVal.pstr "1")]], some [[("ID", PyVal.pstr "2")]]⟩ 5
      ⟨⟨[], [], []⟩, [], 0, 0, 0⟩).toOption.getD
        ⟨⟨[], [], []⟩, [], 0, 0, 0⟩).cIdx := by
  constructor
  · have h := (C6_failures_propagate (fun _ => false)
      ⟨none, some [[("empID", PyVal.pstr "1")]], some [[("ID", PyVal.pstr "2")]]⟩ 5
      ⟨⟨[], [], []⟩, [], 0, 0, 0⟩).2 0
      ⟨⟨[], [], []⟩, [("employees", "1", [("empID", PyVal.pstr "1")])], 1, 1, 1⟩
      (by with_unfolding_all rfl)
    exact ⟨h.1, h.2.2.2⟩
  · have h := (C6_failures_propagate (fun _ => true)
      ⟨none, some [[("empID", PyVal.pstr "1")]], some [[("ID", PyVal.pstr "2")]]⟩ 5
      ⟨⟨[], [], []⟩, [], 0, 0, 0⟩).1
      ((upload_data (fun _ => true)
        ⟨none, some [[("empID", PyVal.pstr "1")]], some [[("ID", PyVal.pstr "2")]]⟩ 5
        ⟨⟨[], [], []⟩, [], 0, 0, 0⟩).toOption.getD
          ⟨⟨[], [], []⟩, [], 0, 0, 0⟩)
      (by with_unfolding_all rfl)
    exact h.1

/-! ### C3: delete-then-replace and idempotence -/

/-- The delete phase only removes documents and leaves the write batch and
counters alone. -/
def Shrinks (u' u : U) : Prop :=
  u'.colls.employees.Sublist u.colls.employees ∧
  u'.colls.devices.Sublist u.colls.devices ∧
  u'.colls.referenceData.Sublist u.colls.referenceData ∧
  u'.batch = u.batch ∧ u'.operation_count = u.operation_count

theorem Shrinks_refl (u : U) : Shrinks u u :=
  ⟨List.Sublist.refl _, List.Sublist.refl _, List.Sublist.refl _, rfl, rfl⟩

theorem Shrinks_trans {u1 u2 u3 : U} (h1 : Shrinks u1 u2) (h2 : Shrinks u2 u3) :
    Shrinks u1 u3 :=
  ⟨h1.1.trans h2.1, h1.2.1.trans h2.2.1, h1.2.2.1.trans h2.2.2.1,
   h1.2.2.2.1.trans h2.2.2.2.1, h1.2.2.2.2.trans h2.2.2.2.2⟩

theorem setColl_filter_shrinks (c : Colls) (name : String)
    (p : String × Doc → Bool) :
    (setColl c name ((getColl c name).filter p)).employees.Sublist c.employees ∧
    (setColl c name ((getColl c name).filter p)).devices.Sublist c.devices ∧
    (setColl c name ((getColl c name).filter p)).referenceData.Sublist c.referenceData := by
  unfold setColl getColl
  split_ifs <;>
    exact ⟨by first | exact List.filter_sublist _ | exact List.Sublist.refl _,
           by first | exact List.filter_sublist _ | exact List.Sublist.refl _,
           by first | exact List.filter_sublist _ | exact List.Sublist.refl _⟩

theorem commitDelBatch_shrinks {o : Nat → Bool} {name : String}
    {ids : List String} {u u' : U}
    (h : commitDelBatch o name ids u = .ok u') : Shrinks u' u := by
  rw [commitDelBatch] at h
  by_cases ho : o u.cIdx = true
  · rw [if_pos ho] at h
    injection h with h1
    subst h1
    have hs := setColl_filter_shrinks u.colls name (fun p => decide (p.1 ∉ ids))
    exact ⟨hs.1, hs.2.1, hs.2.2, rfl, rfl⟩
  · rw [if_neg ho] at h
    exact absurd h (by simp)

theorem processPage_shrinks {o : Nat → Bool} {name : String} :
    ∀ {docs batch : List String} {deleted : Nat} {u u' : U}
      {b' : List String} {d' cnt : Nat},
    processPage o name docs batch deleted u = .ok (u', b', d', cnt) →
    Shrinks u' u := by
  intro docs
  induction docs with
  | nil =>
    intro batch deleted u u' b' d' cnt h
    rw [processPage] at h
    injection h with h1
    injection h1 with h2 h3
    rw [← h2]
    exact Shrinks_refl u
  | cons d ds ih =>
    intro batch deleted u u' b' d' cnt h
    rw [processPage] at h
    by_cases hmod : (deleted + 1) % BATCH_SIZE = 0
    · rw [if_pos hmod] at h
      cases hc : commitDelBatch o name (batch ++ [d]) u with
      | error e => rw [hc] at h; exact absurd h (by simp)
      | ok u1 =>
        rw [hc] at h
        simp only at h
        injection h with h1
        injection h1 with h2 h3
        rw [← h2]
        exact commitDelBatch_shrinks hc
    · rw [if_neg hmod] at h
      cases hp : processPage o name ds (batch ++ [d]) (deleted + 1) u with
      | error e => rw [hp] at h; exact absurd h (by simp)
      | ok quad =>
        obtain ⟨u1, b1, d1, c1⟩ := quad
        rw [hp] at h
        simp only at h
        injection h with h1
        injection h1 with h2 h3
        rw [← h2]
        exact ih hp

theorem deleteLoop_shrinks {o : Nat → Bool} {name : String} :
    ∀ {fuel : Nat} {docs batch : List String} {deleted total : Nat} {u u' : U}
      {b' : List String} {d' t' : Nat},
    deleteLoop o name fuel docs batch deleted total u = .ok (u', b', d', t') →
    Shrinks u' u := by
  intro fuel
  induction fuel with
  | zero =>
    intro docs batch deleted total u u' b' d' t' h
    exact absurd h (by simp [deleteLoop])
  | succ fuel ih =>
    intro docs batch deleted total u u' b' d' t' h
    rw [deleteLoop] at h
    cases hp : processPage o name docs batch deleted u with
    | error e => rw [hp] at h; exact absurd h (by simp)
    | ok quad =>
      obtain ⟨u1, b1, d1, c1⟩ := quad
      rw [hp] at h
      simp only at h
      have hs1 := processPage_shrinks hp
      by_cases hcnt : c1 < BATCH_SIZE
      · rw [if_pos hcnt] at h
        injection h with h1
        injection h1 with h2 h3
        rw [← h2]
        exact hs1
      · rw [if_neg hcnt] at h
        cases hh : ((getColl u1.colls name).take BATCH_SIZE).head? with
        | none =>
          rw [hh] at h
          injection h with h1
          injection h1 with h2 h3
          rw [← h2]
          exact hs1
        | some last =>
          rw [hh] at h
          simp only at h
          exact Shrinks_trans (ih h) hs1

theorem delete_collection_shrinks {o : Nat → Bool} {name : String}
    {fuel : Nat} {u u' : U} {t' : Nat}
    (h : delete_collection o name fuel u = .ok (u', t')) : Shrinks u' u := by
  rw [delete_collection] at h
  cases hl : deleteLoop o name fuel (((getColl u.colls name).take BATCH_SIZE).map (·.1))
      [] 0 0 u with
  | error e => rw [hl] at h; exact absurd h (by simp)
  | ok quad =>
    obtain ⟨u1, b1, d1, t1⟩ := quad
    rw [hl] at h
    simp only at h
    have hs1 := deleteLoop_shrinks hl
    by_cases hmod : d1 % BATCH_SIZE ≠ 0
    · rw [if_pos hmod] at h
      cases hc : commitDelBatch o name b1 u1 with
      | error e => rw [hc] at h; exact absurd h (by simp)
      | ok u2 =>
        rw [hc] at h
        simp only at h
        injection h with h1
        injection h1 with h2 h3
        rw [← h2]
        exact Shrinks_trans (commitDelBatch_shrinks hc) hs1
    · rw [if_neg hmod] at h
      injection h with h1
      injection h1 with h2 h3
      rw [← h2]
      exact hs1

theorem deletePhase_shrinks {o : Nat → Bool} {fuel : Nat} :
    ∀ {names : List String} {u u' : U},
    deletePhase o fuel names u = .ok u' → Shrinks u' u := by
  intro names
  induction names with
  | nil =>
    intro u u' h
    rw [deletePhase] at h
    injection h with h1
    rw [← h1]
    exact Shrinks_refl u
  | cons name rest ih =>
    intro u u' h
    rw [deletePhase] at h
    cases hd : delete_collection o name fuel u with
    | error e => rw [hd] at h; exact absurd h (by simp)
    | ok pr =>
      obtain ⟨u1, t1⟩ := pr
      rw [hd] at h
      simp only at h
      exact Shrinks_trans (ih h) (delete_collection_shrinks hd)

/-- The natural id of a record under the given key, as `upload_data`
derives it (`str(rec.get(key, ''))`). -/
def keyStr (key : String) (rec : Doc) : String :=
  pyStr ((rec.lookup key).getD (.pstr ""))

/-- The write phase of one collection applied directly: skip empty ids,
convert and upsert the rest, in record order. -/
def collFold (key : String) (recs : List Doc) (c : Collection) : Collection :=
  recs.foldl (fun c rec =>
    if keyStr key rec ≠ "" then setDoc c (keyStr key rec) (convDoc rec) else c) c

theorem applyBOp_emp (c : Colls) (i : String) (d : Doc) :
    applyBOp c ("employees", i, d) = { c with employees := setDoc c.employees i d } := rfl

theorem applyBOp_dev (c : Colls) (i : String) (d : Doc) :
    applyBOp c ("devices", i, d) = { c with devices := setDoc c.devices i d } := rfl

theorem applyBOp_ref (c : Colls) (i : String) (d : Doc) :
    applyBOp c ("referenceData", i, d)
      = { c with referenceData := setDoc c.referenceData i d } := rfl

theorem foldl_recStep_emp (key : String) :
    ∀ (recs : List Doc) (c : Colls),
    (recs.foldl (recStep "employees" key) c).employees
        = collFold key recs c.employees ∧
    (recs.foldl (recStep "employees" key) c).devices = c.devices ∧
    (recs.foldl (recStep "employees" key) c).referenceData = c.referenceData := by
  intro recs
  induction recs with
  | nil => intro c; exact ⟨rfl, rfl, rfl⟩
  | cons rec rest ih =>
    intro c
    rw [List.foldl_cons, collFold, List.foldl_cons]
    have hstep : recStep "employees" key c rec
        = if keyStr key rec ≠ "" then
            applyBOp c ("employees", keyStr key rec, convDoc rec) else c := rfl
    by_cases hid : keyStr key rec ≠ ""
    · rw [hstep, if_pos hid, applyBOp_emp, if_pos hid]
      exact ih _
    · rw [hstep, if_neg hid, if_neg hid]
      exact ih c

theorem foldl_recStep_dev (key : String) :
    ∀ (recs : List Doc) (c : Colls),
    (recs.foldl (recStep "devices" key) c).devices
        = collFold key recs c.devices ∧
    (recs.foldl (recStep "devices" key) c).employees = c.employees ∧
    (recs.foldl (recStep "devices" key) c).referenceData = c.referenceData := by
  intro recs
  induction recs with
  | nil => intro c; exact ⟨rfl, rfl, rfl⟩
  | cons rec rest ih =>
    intro c
    rw [List.foldl_cons, collFold, List.foldl_cons]
    have hstep : recStep "devices" key c rec
        = if keyStr key rec ≠ "" then
            applyBOp c ("devices", keyStr key rec, convDoc rec) else c := rfl
    by_cases hid : keyStr key rec ≠ ""
    · rw [hstep, if_pos hid, applyBOp_dev, if_pos hid]
      exact ih _
    · rw [hstep, if_neg hid, if_neg hid]
      exact ih c

theorem setDoc_keys (c : Collection) (i : String) (d : Doc) :
    (setDoc c i d).map Prod.fst
      = if c.any (fun p => p.1 = i) then c.map Prod.fst else c.map Prod.fst ++ [i] := by
  rw [setDoc]
  by_cases hany : c.any (fun p => p.1 = i)
  · rw [if_pos hany, if_pos hany, List.map_map]
    apply List.map_congr_left
    intro p _
    by_cases hp : p.1 = i
    · simp [hp]
    · simp [hp]
  · rw [if_neg hany, if_neg hany]
    simp

theorem setDoc_nodupKeys {c : Collection} {i : String} {d : Doc}
    (h : (c.map Prod.fst).Nodup) : ((setDoc c i d).map Prod.fst).Nodup := by
  rw [setDoc_keys]
  by_cases hany : c.any (fun p => p.1 = i)
  · rw [if_pos hany]; exact h
  · rw [if_neg hany]
    rw [List.any_eq_true] at hany
    push_neg at hany
    have hnotin : i ∉ c.map Prod.fst := by
      rw [List.mem_map]
      rintro ⟨p, hp, hpi⟩
      have hne : p.1 ≠ i := by simpa using hany p hp
      exact hne hpi
    simp [List.nodup_append, h, hnotin]

theorem lookup_map_replace (i : String) (d : Doc) :
    ∀ (c : Collection), (∃ p ∈ c, p.1 = i) →
    (c.map (fun p => if p.1 = i then (i, d) else p)).lookup i = some d := by
  intro c
  induction c with
  | nil => rintro ⟨p, hp, _⟩; exact absurd hp (by simp)
  | cons p0 rest ih =>
    rintro ⟨p, hp, hpi⟩
    rw [List.map_cons]
    by_cases h0 : p0.1 = i
    · rw [if_pos h0]
      simp [List.lookup]
    · rw [if_neg h0, List.lookup]
      have hbeq : (i == p0.1) = false := beq_false_of_ne (fun he => h0 he.symm)
      rw [hbeq]
      apply ih
      rcases List.mem_cons.1 hp with heq | hmem
      · exact absurd (heq ▸ hpi) h0
      · exact ⟨p, hmem, hpi⟩

theorem lookup_append_fresh (i : String) (d : Doc) :
    ∀ (c : Collection), (∀ p ∈ c, p.1 ≠ i) →
    (c ++ [(i, d)]).lookup i = some d := by
  intro c
  induction c with
  | nil => intro _; simp [List.lookup]
  | cons p0 rest ih =>
    intro hall
    rw [List.cons_append, List.lookup]
    have hbeq : (i == p0.1) = false :=
      beq_false_of_ne (fun he => hall p0 (List.mem_cons_self _ _) he.symm)
    rw [hbeq]
    exact ih (fun p hp => hall p (List.mem_cons_of_mem _ hp))

theorem setDoc_lookup_self (c : Collection) (i : String) (d : Doc) :
    (setDoc c i d).lookup i = some d := by
  rw [setDoc]
  by_cases hany : c.any (fun p => p.1 = i)
  · rw [if_pos hany]
    rw [List.any_eq_true] at hany
    obtain ⟨p, hp, hpi⟩ := hany
    exact lookup_map_replace i d c ⟨p, hp, by simpa using hpi⟩
  · rw [if_neg hany]
    rw [List.any_eq_true] at hany
    push_neg at hany
    exact lookup_append_fresh i d c (fun p hp => by simpa using hany p hp)

theorem setDoc_lookup_ne {j i : String} (hne : j ≠ i) (d : Doc) :
    ∀ (c : Collection), (setDoc c i d).lookup j = c.lookup j := by
  have hbeqji : (j == i) = false := beq_false_of_ne hne
  intro c
  rw [setDoc]
  by_cases hany : c.any (fun p => p.1 = i)
  · rw [if_pos hany]
    clear hany
    induction c with
    | nil => rfl
    | cons p0 rest ih =>
      rw [List.map_cons]
      by_cases h0 : p0.1 = i
      · rw [if_pos h0, List.lookup, List.lookup, hbeqji]
        have : (j == p0.1) = false := by rw [h0]; exact hbeqji
        rw [this]
        exact ih
      · rw [if_neg h0, List.lookup, List.lookup]
        cases hjp : (j == p0.1) with
        | true => rfl
        | false => exact ih
  · rw [if_neg hany]
    clear hany
    induction c with
    | nil => simp [List.lookup, hbeqji]
    | cons p0 rest ih =>
      rw [List.cons_append, List.lookup, List.lookup]
      cases hjp : (j == p0.1) with
      | true => rfl
      | false => exact ih

theorem lookup_keys_mem {c : Collection} {i : String} {d : Doc}
    (h : c.lookup i = some d) : i ∈ c.map Prod.fst := by
  induction c with
  | nil => exact absurd h (by simp [List.lookup])
  | cons p0 rest ih =>
    rw [List.lookup] at h
    cases hip : (i == p0.1) with
    | true =>
      have : i = p0.1 := by simpa using hip
      simp [this]
    | false =>
      rw [hip] at h
      exact List.mem_cons_of_mem _ (ih h)

theorem virt_nil {u : U} (h : u.batch = []) : virt u = u.colls := by
  rw [virt, h]
  rfl

theorem collFold_lookup_preserved (key : String) {j : String} :
    ∀ (recs : List Doc) (c : Collection),
    (∀ r ∈ recs, keyStr key r ≠ "" → keyStr key r ≠ j) →
    (collFold key recs c).lookup j = c.lookup j := by
  intro recs
  induction recs with
  | nil => intro c _; rfl
  | cons r0 rest ih =>
    intro c hall
    have hcons : collFold key (r0 :: rest) c
        = collFold key rest
            (if keyStr key r0 ≠ "" then setDoc c (keyStr key r0) (convDoc r0) else c) := rfl
    rw [hcons]
    by_cases hid : keyStr key r0 ≠ ""
    · rw [if_pos hid]
      rw [ih _ (fun r hr h1 => hall r (List.mem_cons_of_mem _ hr) h1)]
      exact setDoc_lookup_ne (hall r0 (List.mem_cons_self _ _) hid).symm _ c
    · rw [if_neg hid]
      exact ih c (fun r hr h1 => hall r (List.mem_cons_of_mem _ hr) h1)

theorem collFold_nodupKeys (key : String) :
    ∀ (recs : List Doc) (c : Collection),
    (c.map Prod.fst).Nodup → ((collFold key recs c).map Prod.fst).Nodup := by
  intro recs
  induction recs with
  | nil => intro c h; exact h
  | cons r0 rest ih =>
    intro c h
    have hcons : collFold key (r0 :: rest) c
        = collFold key rest
            (if keyStr key r0 ≠ "" then setDoc c (keyStr key r0) (convDoc r0) else c) := rfl
    rw [hcons]
    by_cases hid : keyStr key r0 ≠ ""
    · rw [if_pos hid]
      exact ih _ (setDoc_nodupKeys h)
    · rw [if_neg hid]
      exact ih c h

theorem collFold_lookup (key : String) :
    ∀ (recs : List Doc) (c : Collection) {rec : Doc},
    ((recs.map (keyStr key)).filter (fun s => decide (s ≠ ""))).Nodup →
    rec ∈ recs → keyStr key rec ≠ "" →
    (collFold key recs c).lookup (keyStr key rec) = some (convDoc rec) := by
  intro recs
  induction recs with
  | nil =>
    intro c rec _ hmem _
    exact absurd hmem (by simp)
  | cons r0 rest ih =>
    intro c rec hnd hmem hidr
    have hcons : collFold key (r0 :: rest) c
        = collFold key rest
            (if keyStr key r0 ≠ "" then setDoc c (keyStr key r0) (convDoc r0) else c) := rfl
    rw [hcons]
    rw [List.map_cons, List.filter_cons] at hnd
    by_cases hid0 : keyStr key r0 ≠ ""
    · rw [if_pos hid0]
      rw [if_pos (by simpa using hid0)] at hnd
      obtain ⟨hnotmem, hndrest⟩ := List.nodup_cons.1 hnd
      rcases List.mem_cons.1 hmem with heq | hmemr
      · subst heq
        rw [collFold_lookup_preserved key rest _ ?hall]
        · exact setDoc_lookup_self c _ _
        case hall =>
          intro r hr h1 hEq
          apply hnotmem
          rw [List.mem_filter]
          refine ⟨?_, by simpa using hid0⟩
          rw [← hEq]
          exact List.mem_map_of_mem _ hr
      · exact ih _ hndrest hmemr hidr
    · rw [if_neg hid0]
      rw [if_neg (by simpa using hid0)] at hnd
      rcases List.mem_cons.1 hmem with heq | hmemr
      · subst heq
        exact absurd hidr hid0
      · exact ih c hnd hmemr hidr

/-- The net store effect of a successful `upload_data` run: starting from
an empty pending batch, the run shrinks each collection by the paged
deletes, writes the three reference docs and then upserts the employee
and device records by their natural ids. -/
theorem upload_data_effect {o : Nat → Bool} {data : UploadData} {fuel : Nat}
    {u u' : U} {rd : RefData} {emps devs : List Doc}
    (h : upload_data o data fuel u = .ok u')
    (hb : u.batch = []) (hw : WfB u)
    (hr : data.reference_data = some rd)
    (he : data.employees = some emps) (hd : data.devices = some devs)
    (hene : emps.isEmpty = false) (hdne : devs.isEmpty = false) :
    ∃ empDel devDel refDel : Collection,
      empDel.Sublist u.colls.employees ∧
      devDel.Sublist u.colls.devices ∧
      refDel.Sublist u.colls.referenceData ∧
      u'.batch = [] ∧ WfB u' ∧
      u'.colls.employees = collFold "empID" emps empDel ∧
      u'.colls.devices = collFold "ID" devs devDel ∧
      u'.colls.referenceData =
        setDoc (setDoc (setDoc refDel "cities" [("cities", .plist rd.cities)])
          "divisions" [("divisions", .plist rd.divisions)])
          "positions" [("positions", .plist rd.positions)] := by
  rw [upload_data] at h
  cases hdel : deletePhase o fuel ["employees", "devices", "referenceData"] u with
  | error e => rw [hdel] at h; exact absurd h (by simp)
  | ok u1 =>
    rw [hdel] at h
    simp only at h
    rw [hr] at h
    simp only at h
    obtain ⟨hsE, hsD, hsR, hbatch1, hopc1⟩ := deletePhase_shrinks hdel
    have hb1 : u1.batch = [] := hbatch1.trans hb
    have hw1 : WfB u1 := by
      rw [WfB] at hw ⊢
      rw [hopc1, hb1, hw, hb]
    cases ha : add_to_batch o "referenceData" "cities"
        [("cities", PyVal.plist rd.cities)] u1 with
    | error e => rw [ha] at h; exact absurd h (by simp)
    | ok ua =>
      rw [ha] at h
      simp only at h
      obtain ⟨hva, hwa⟩ := add_to_batch_virt ha hw1
      cases hbd : add_to_batch o "referenceData" "divisions"
          [("divisions", PyVal.plist rd.divisions)] ua with
      | error e => rw [hbd] at h; exact absurd h (by simp)
      | ok ub =>
        rw [hbd] at h
        simp only at h
        obtain ⟨hvb, hwb⟩ := add_to_batch_virt hbd hwa
        cases hc : add_to_batch o "referenceData" "positions"
            [("positions", PyVal.plist rd.positions)] ub with
        | error e => rw [hc] at h; exact absurd h (by simp)
        | ok u2 =>
          rw [hc] at h
          simp only at h
          obtain ⟨hvc, hwc⟩ := add_to_batch_virt hc hwb
          have hv2e : (virt u2).employees = u1.colls.employees := by
            rw [hvc, hvb, hva, virt_nil hb1, applyBOp_ref, applyBOp_ref, applyBOp_ref]
          have hv2d : (virt u2).devices = u1.colls.devices := by
            rw [hvc, hvb, hva, virt_nil hb1, applyBOp_ref, applyBOp_ref, applyBOp_ref]
          have hv2r : (virt u2).referenceData
              = setDoc (setDoc (setDoc u1.colls.referenceData
                  "cities" [("cities", .plist rd.cities)])
                  "divisions" [("divisions", .plist rd.divisions)])
                  "positions" [("positions", .plist rd.positions)] := by
            rw [hvc, hvb, hva, virt_nil hb1, applyBOp_ref, applyBOp_ref, applyBOp_ref]
          rw [he] at h
          simp only at h
          rw [if_neg (by simp [hene])] at h
          cases hur : uploadRecords o "employees" "empID" emps u2 with
          | error e => rw [hur] at h; exact absurd h (by simp)
          | ok u2' =>
            rw [hur] at h
            simp only at h
            obtain ⟨hvur, hwur⟩ := uploadRecords_virt hur hwc
            cases hcb : commit_batch o u2' with
            | error e => rw [hcb] at h; exact absurd h (by simp)
            | ok u3 =>
              rw [hcb] at h
              simp only at h
              obtain ⟨hvcb, hwcb, hb3⟩ := commit_batch_virt hcb hwur
              rw [hd] at h
              simp only at h
              rw [if_neg (by simp [hdne])] at h
              cases hur2 : uploadRecords o "devices" "ID" devs u3 with
              | error e => rw [hur2] at h; exact absurd h (by simp)
              | ok u3' =>
                rw [hur2] at h
                simp only at h
                obtain ⟨hvur2, hwur2⟩ := uploadRecords_virt hur2 hwcb
                obtain ⟨hvcb2, hwcb2, hb4⟩ := commit_batch_virt h hwur2
                have hcolls3 : u3.colls = emps.foldl (recStep "employees" "empID") (virt u2) := by
                  rw [← virt_nil hb3, hvcb, hvur]
                have hcollsF : u'.colls = devs.foldl (recStep "devices" "ID") u3.colls := by
                  rw [← virt_nil hb4, hvcb2, hvur2, virt_nil hb3]
                refine ⟨u1.colls.employees, u1.colls.devices, u1.colls.referenceData,
                  hsE, hsD, hsR, hb4, hwcb2, ?_, ?_, ?_⟩
                · rw [hcollsF, (foldl_recStep_dev "ID" devs u3.colls).2.1, hcolls3,
                      (foldl_recStep_emp "empID" emps (virt u2)).1, hv2e]
                · rw [hcollsF, (foldl_recStep_dev "ID" devs u3.colls).1, hcolls3,
                      (foldl_recStep_emp "empID" emps (virt u2)).2.1, hv2d]
                · rw [hcollsF, (foldl_recStep_dev "ID" devs u3.colls).2.2, hcolls3,
                      (foldl_recStep_emp "empID" emps (virt u2)).2.2, hv2r]

/-- A synthetic stale store content: `n` documents with pairwise distinct
single-character ids (document `i` gets the character of codepoint
`65 + i`) and empty bodies. -/
def stale (n : Nat) : Collection :=
  (List.range n).map (fun i => (String.mk [Char.ofNat (65 + i)], ([] : Doc)))

/-- The ids of the first `n` stale documents. -/
def staleIds (n : Nat) : List String :=
  (List.range n).map (fun i => String.mk [Char.ofNat (65 + i)])

theorem processPage_fullPage (o : Nat → Bool) (name : String) :
    ∀ (ds batch : List String) (deleted : Nat) (u : U),
    deleted + ds.length = BATCH_SIZE → deleted < BATCH_SIZE →
    processPage o name ds batch deleted u
      = match commitDelBatch o name (batch ++ ds) u with
        | .error e => .error e
        | .ok u' => .ok (u', [], BATCH_SIZE, ds.length) := by
  intro ds
  induction ds with
  | nil =>
    intro batch deleted u hlen hlt
    exfalso
    simp only [List.length_nil] at hlen
    omega
  | cons d ds' ih =>
    intro batch deleted u hlen hlt
    rw [processPage]
    have hlen0 : deleted + (1 + ds'.length) = BATCH_SIZE := by
      simpa [Nat.add_comm, Nat.add_assoc, Nat.add_left_comm] using hlen
    by_cases hend : ds'.length = 0
    · have hds' : ds' = [] := List.eq_nil_of_length_eq_zero hend
      subst hds'
      have h400 : deleted + 1 = BATCH_SIZE := by omega
      rw [if_pos (by rw [h400]; exact Nat.mod_self _)]
      rw [h400]
      cases hc : commitDelBatch o name (batch ++ [d]) u with
      | error e => simp
      | ok u' => simp
    · have h1 : 0 < ds'.length := Nat.pos_of_ne_zero hend
      have hlen' : (deleted + 1) + ds'.length = BATCH_SIZE := by omega
      have hlt' : deleted + 1 < BATCH_SIZE := by omega
      rw [if_neg (by rw [Nat.mod_eq_of_lt hlt']; omega)]
      rw [ih (batch ++ [d]) (deleted + 1) u hlen' hlt']
      rw [show (batch ++ [d]) ++ ds' = batch ++ (d :: ds') by simp]
      cases hc : commitDelBatch o name (batch ++ (d :: ds')) u with
      | error e => simp
      | ok u' => simp

theorem stale_succ (n : Nat) :
    stale (n + 1) = stale n ++ [(String.mk [Char.ofNat (65 + n)], ([] : Doc))] := by
  rw [stale, stale, List.range_succ, List.map_append, List.map_cons, List.map_nil]

theorem staleIds_not_mem : String.mk [Char.ofNat 465] ∉ staleIds 400 := by
  rw [staleIds]
  with_unfolding_all decide

theorem stale_filter :
    (stale 401).filter (fun p => p.1 ∉ staleIds 400)
      = [(String.mk [Char.ofNat 465], ([] : Doc))] := by
  rw [show (401 : Nat) = 400 + 1 from rfl, stale_succ, List.filter_append]
  have h1 : (stale 400).filter (fun p => p.1 ∉ staleIds 400) = [] := by
    rw [List.filter_eq_nil_iff]
    intro a ha
    rw [stale] at ha
    obtain ⟨i, hi, rfl⟩ := List.mem_map.1 ha
    simp only [decide_eq_true_eq, Decidable.not_not]
    rw [staleIds]
    exact List.mem_map_of_mem _ hi
  have h2 : ([(String.mk [Char.ofNat (65 + 400)], ([] : Doc))]).filter
      (fun p => p.1 ∉ staleIds 400)
      = [(String.mk [Char.ofNat (65 + 400)], ([] : Doc))] := by
    rw [List.filter_cons,
        if_pos (by simpa using (show String.mk [Char.ofNat (65 + 400)] ∉ staleIds 400 from
          staleIds_not_mem)), List.filter_nil]
  rw [h1, h2, List.nil_append]

set_option maxRecDepth 4000 in
/-- C3 counterexample: the paged delete pass does NOT remove every
previously stored document.  On an `employees` collection holding 401
documents with distinct ids and an always-succeeding store,
`delete_collection` commits the first full 400-doc page, then re-queries
and consumes the first remaining document as the `start_after` cursor,
skipping past it — so it reports normal completion (400 deletions, no
documents left to page over) while the 401st document is still in the
store.  The "repeat until none remain" delete pass of the claim
therefore fails: a previously stored document survives. -/
theorem C3_counterexample :
    delete_collection (fun _ => true) "employees" 2
        ⟨⟨stale 401, [], []⟩, [], 0, 0, 0⟩
      = .ok (⟨⟨[(String.mk [Char.ofNat 465], [])], [], []⟩, [], 0, 0, 1⟩, 400) ∧
    (String.mk [Char.ofNat 465], ([] : Doc)) ∈ stale 401 := by
  have hB : BATCH_SIZE = 400 := rfl
  have hdocs0 : ((stale 401).take BATCH_SIZE).map (fun x => x.1) = staleIds 400 := by
    rw [stale, staleIds, hB]
    rw [← List.map_take, List.take_range]
    rw [show min 400 401 = 400 from rfl]
    rw [List.map_map]
    rfl
  have hlen : (0 : Nat) + (staleIds 400).length = BATCH_SIZE := by
    rw [staleIds, hB]
    simp
  have hPP := processPage_fullPage (fun _ => true) "employees" (staleIds 400) [] 0
    (⟨⟨stale 401, [], []⟩, [], 0, 0, 0⟩ : U) hlen (by rw [hB]; omega)
  rw [List.nil_append] at hPP
  have hcommit : commitDelBatch (fun _ => true) "employees" (staleIds 400)
      (⟨⟨stale 401, [], []⟩, [], 0, 0, 0⟩ : U)
      = .ok ⟨⟨[(String.mk [Char.ofNat 465], [])], [], []⟩, [], 0, 0, 1⟩ := by
    rw [commitDelBatch]
    rw [if_pos rfl]
    rw [show getColl ((⟨⟨stale 401, [], []⟩, [], 0, 0, 0⟩ : U)).colls "employees"
        = stale 401 from rfl]
    rw [stale_filter]
    rfl
  rw [hcommit] at hPP
  simp only at hPP
  have hlen400 : (staleIds 400).length = 400 := by
    rw [staleIds]; simp
  rw [hlen400, hB] at hPP
  have hDL : deleteLoop (fun _ => true) "employees" 2 (staleIds 400) [] 0 0
      (⟨⟨stale 401, [], []⟩, [], 0, 0, 0⟩ : U)
      = .ok (⟨⟨[(String.mk [Char.ofNat 465], [])], [], []⟩, [], 0, 0, 1⟩,
             [], 400, 400) := by
    rw [show (2 : Nat) = 1 + 1 from rfl, deleteLoop, hPP]
    with_unfolding_all rfl
  constructor
  · rw [delete_collection]
    simp only
    rw [show getColl (⟨stale 401, [], []⟩ : Colls) "employees" = stale 401 from rfl]
    rw [hdocs0, hDL]
    with_unfolding_all rfl
  · rw [show (401 : Nat) = 400 + 1 from rfl, stale_succ]
    rw [show (65 + 400 : Nat) = 465 from rfl]
    exact List.mem_append_right _ (List.mem_singleton.2 rfl)

/-- C3 (amended) — Replace semantics of `upload_data` via keyed upserts:
for a dataset with reference data, a non-empty employee list and a
non-empty device list whose non-empty natural ids are duplicate-free,
two consecutive successful syncs against the same store leave every
dataset record present exactly once in its target collection — each
employee/device with a non-empty id is stored (field-stringified) under
exactly one document with that id, and the three reference docs are
stored under their fixed ids.  (The delete pass only shrinks the prior
collections; as `C3_counterexample` shows, it may leave stale documents
behind, so "the delete pass removes every previously stored document"
from the original claim is false — the no-duplicates outcome rests on
document-id upserts, not on complete deletion.) -/
theorem C3_replace_semantics (o : Nat → Bool) (data : UploadData) (fuel : Nat)
    (u0 u1 u2 : U) (rd : RefData) (emps devs : List Doc)
    (hr : data.reference_data = some rd)
    (he : data.employees = some emps) (hd : data.devices = some devs)
    (hene : emps.isEmpty = false) (hdne : devs.isEmpty = false)
    (hb0 : u0.batch = []) (hw0 : WfB u0)
    (hk0E : (u0.colls.employees.map Prod.fst).Nodup)
    (hk0D : (u0.colls.devices.map Prod.fst).Nodup)
    (hnodE : ((emps.map (keyStr "empID")).filter (fun s => decide (s ≠ ""))).Nodup)
    (hnodD : ((devs.map (keyStr "ID")).filter (fun s => decide (s ≠ ""))).Nodup)
    (h1 : upload_data o data fuel u0 = .ok u1)
    (h2 : upload_data o data fuel u1 = .ok u2) :
    (∀ rec ∈ emps, keyStr "empID" rec ≠ "" →
       u2.colls.employees.lookup (keyStr "empID" rec) = some (convDoc rec) ∧
       (u2.colls.employees.map Prod.fst).count (keyStr "empID" rec) = 1) ∧
    (∀ rec ∈ devs, keyStr "ID" rec ≠ "" →
       u2.colls.devices.lookup (keyStr "ID" rec) = some (convDoc rec) ∧
       (u2.colls.devices.map Prod.fst).count (keyStr "ID" rec) = 1) ∧
    u2.colls.referenceData.lookup "cities" = some [("cities", .plist rd.cities)] ∧
    u2.colls.referenceData.lookup "divisions" = some [("divisions", .plist rd.divisions)] ∧
    u2.colls.referenceData.lookup "positions" = some [("positions", .plist rd.positions)] := by
  obtain ⟨eD0, dD0, rD0, hsE0, hsD0, hsR0, hb1, hw1, hE1, hD1, hR1⟩ :=
    upload_data_effect h1 hb0 hw0 hr he hd hene hdne
  obtain ⟨eD1, dD1, rD1, hsE1, hsD1, hsR1, hb2, hw2, hE2, hD2, hR2⟩ :=
    upload_data_effect h2 hb1 hw1 hr he hd hene hdne
  have hkey1E : (u1.colls.employees.map Prod.fst).Nodup := by
    rw [hE1]
    exact collFold_nodupKeys _ _ _ (List.Nodup.sublist (hsE0.map Prod.fst) hk0E)
  have hkey1D : (u1.colls.devices.map Prod.fst).Nodup := by
    rw [hD1]
    exact collFold_nodupKeys _ _ _ (List.Nodup.sublist (hsD0.map Prod.fst) hk0D)
  have hkey2E : (u2.colls.employees.map Prod.fst).Nodup := by
    rw [hE2]
    exact collFold_nodupKeys _ _ _ (List.Nodup.sublist (hsE1.map Prod.fst) hkey1E)
  have hkey2D : (u2.colls.devices.map Prod.fst).Nodup := by
    rw [hD2]
    exact collFold_nodupKeys _ _ _ (List.Nodup.sublist (hsD1.map Prod.fst) hkey1D)
  refine ⟨?_, ?_, ?_, ?_, ?_⟩
  · intro rec hmem hid
    have hlk : u2.colls.employees.lookup (keyStr "empID" rec) = some (convDoc rec) := by
      rw [hE2]
      exact collFold_lookup "empID" emps eD1 hnodE hmem hid
    exact ⟨hlk, List.count_eq_one_of_mem hkey2E (lookup_keys_mem hlk)⟩
  · intro rec hmem hid
    have hlk : u2.colls.devices.lookup (keyStr "ID" rec) = some (convDoc rec) := by
      rw [hD2]
      exact collFold_lookup "ID" devs dD1 hnodD hmem hid
    exact ⟨hlk, List.count_eq_one_of_mem hkey2D (lookup_keys_mem hlk)⟩
  · rw [hR2]
    rw [setDoc_lookup_ne (show ("cities" : String) ≠ "positions" by decide)]
    rw [setDoc_lookup_ne (show ("cities" : String) ≠ "divisions" by decide)]
    exact setDoc_lookup_self _ _ _
  · rw [hR2]
    rw [setDoc_lookup_ne (show ("divisions" : String) ≠ "positions" by decide)]
    exact setDoc_lookup_self _ _ _
  · rw [hR2]
    exact setDoc_lookup_self _ _ _

/-- C3 witness: the one-employee / one-device dataset synced twice from
an empty store over an always-succeeding oracle; both runs succeed and
the amended theorem yields the exactly-once facts for the concrete final
store. -/
theorem C3_replace_semantics_witness :
    upload_data (fun _ => true)
        ⟨some ⟨[], [], []⟩, some [[("empID", PyVal.pstr "1")]], some [[("ID", PyVal.pstr "2")]]⟩ 1
        ⟨⟨[], [], []⟩, [], 0, 0, 0⟩
      = .ok ⟨⟨[("1", [("empID", PyVal.pstr "1")])], [("2", [("ID", PyVal.pstr "2")])],
             [("cities", [("cities", PyVal.plist [])]),
              ("divisions", [("divisions", PyVal.plist [])]),
              ("positions", [("positions", PyVal.plist [])])]⟩, [], 0, 5, 2⟩ ∧
    upload_data (fun _ => true)
        ⟨some ⟨[], [], []⟩, some [[("empID", PyVal.pstr "1")]], some [[("ID", PyVal.pstr "2")]]⟩ 1
        ⟨⟨[("1", [("empID", PyVal.pstr "1")])], [("2", [("ID", PyVal.pstr "2")])],
             [("cities", [("cities", PyVal.plist [])]),
              ("divisions", [("divisions", PyVal.plist [])]),
              ("positions", [("positions", PyVal.plist [])])]⟩, [], 0, 5, 2⟩
      = .ok ⟨⟨[("1", [("empID", PyVal.pstr "1")])], [("2", [("ID", PyVal.pstr "2")])],
             [("cities", [("cities", PyVal.plist [])]),
              ("divisions", [("divisions", PyVal.plist [])]),
              ("positions", [("positions", PyVal.plist [])])]⟩, [], 0, 10, 7⟩ ∧
    ([("1", [("empID", PyVal.pstr "1")])] : Collection).lookup "1"
      = some [("empID", PyVal.pstr "1")] ∧
    (([("1", [("empID", PyVal.pstr "1")])] : Collection).map Prod.fst).count "1" = 1 ∧
    ([("2", [("ID", PyVal.pstr "2")])] : Collection).lookup "2"
      = some [("ID", PyVal.pstr "2")] ∧
    (([("2", [("ID", PyVal.pstr "2")])] : Collection).map Prod.fst).count "2" = 1 ∧
    ([("cities", [("cities", PyVal.plist [])]),
      ("divisions", [("divisions", PyVal.plist [])]),
      ("positions", [("positions", PyVal.plist [])])] : Collection).lookup "cities"
      = some [("cities", PyVal.plist [])] := by
  have h1 : upload_data (fun _ => true)
      ⟨some ⟨[], [], []⟩, some [[("empID", PyVal.pstr "1")]], some [[("ID", PyVal.pstr "2")]]⟩ 1
      ⟨⟨[], [], []⟩, [], 0, 0, 0⟩
    = .ok ⟨⟨[("1", [("empID", PyVal.pstr "1")])], [("2", [("ID", PyVal.pstr "2")])],
           [("cities", [("cities", PyVal.plist [])]),
            ("divisions", [("divisions", PyVal.plist [])]),
            ("positions", [("positions", PyVal.plist [])])]⟩, [], 0, 5, 2⟩ := by
    with_unfolding_all rfl
  have h2 : upload_data (fun _ => true)
      ⟨some ⟨[], [], []⟩, some [[("empID", PyVal.pstr "1")]], some [[("ID", PyVal.pstr "2")]]⟩ 1
      ⟨⟨[("1", [("empID", PyVal.pstr "1")])], [("2", [("ID", PyVal.pstr "2")])],
           [("cities", [("cities", PyVal.plist [])]),
            ("divisions", [("divisions", PyVal.plist [])]),
            ("positions", [("positions", PyVal.plist [])])]⟩, [], 0, 5, 2⟩
    = .ok ⟨⟨[("1", [("empID", PyVal.pstr "1")])], [("2", [("ID", PyVal.pstr "2")])],
           [("cities", [("cities", PyVal.plist [])]),
            ("divisions", [("divisions", PyVal.plist [])]),
            ("positions", [("positions", PyVal.plist [])])]⟩, [], 0, 10, 7⟩ := by
    with_unfolding_all rfl
  have hmain := C3_replace_semantics (fun _ => true)
    ⟨some ⟨[], [], []⟩, some [[("empID", PyVal.pstr "1")]], some [[("ID", PyVal.pstr "2")]]⟩ 1
    ⟨⟨[], [], []⟩, [], 0, 0, 0⟩
    ⟨⟨[("1", [("empID", PyVal.pstr "1")])], [("2", [("ID", PyVal.pstr "2")])],
      [("cities", [("cities", PyVal.plist [])]),
       ("divisions", [("divisions", PyVal.plist [])]),
       ("positions", [("positions", PyVal.plist [])])]⟩, [], 0, 5, 2⟩
    ⟨⟨[("1", [("empID", PyVal.pstr "1")])], [("2", [("ID", PyVal.pstr "2")])],
      [("cities", [("cities", PyVal.plist [])]),
       ("divisions", [("divisions", PyVal.plist [])]),
       ("positions", [("positions", PyVal.plist [])])]⟩, [], 0, 10, 7⟩
    ⟨[], [], []⟩ [[("empID", PyVal.pstr "1")]] [[("ID", PyVal.pstr "2")]]
    rfl rfl rfl rfl rfl rfl rfl (by simp) (by simp)
    (by with_unfolding_all decide) (by with_unfolding_all decide) h1 h2
  obtain ⟨hE, hD, hct, hdv, hps⟩ := hmain
  have he1 := hE [("empID", PyVal.pstr "1")] (by simp) (by with_unfolding_all decide)
  have hd1 := hD [("ID", PyVal.pstr "2")] (by simp) (by with_unfolding_all decide)
  have hkE : keyStr "empID" [("empID", PyVal.pstr "1")] = "1" := by with_unfolding_all rfl
  have hkD : keyStr "ID" [("ID", PyVal.pstr "2")] = "2" := by with_unfolding_all rfl
  have hcE : convDoc [("empID", PyVal.pstr "1")] = [("empID", PyVal.pstr "1")] := by
    with_unfolding_all rfl
  have hcD : convDoc [("ID", PyVal.pstr "2")] = [("ID", PyVal.pstr "2")] := by
    with_unfolding_all rfl
  rw [hkE, hcE] at he1
  rw [hkD, hcD] at hd1
  exact ⟨h1, h2, he1.1, he1.2, hd1.1, hd1.2, hct⟩

end MyDevices

